import Mathlib

/-!
# Verification of the itinerary scheduling engine (`scheduler.py`)

Shallow embedding of the "Tetris Engine" itinerary scheduler: the circuit
router, cluster assigner/merger, weekday aligner, cluster router, day
splitter, time-budget simulator and the top-level `build_itinerary`
pipeline, together with theorems settling the specification claims.

Modelling conventions:
* Python dicts with a fixed field set become structures; optional fields
  (`d.get(k, default)`) become `Option` fields with the default applied at
  the use site, exactly where the source applies it.
* The zone-name → places dict is an association list; Python dict
  assignment (overwrite-if-present-else-append-at-end) and deletion are
  embedded explicitly.
* Clock values are minutes since midnight as `Nat` (all source arithmetic
  on them is integral: hours are ints, `LUNCH_BREAK_TIME * 60 = 810.0`
  compares exactly against integral minute counts).
* The Google Maps client is an abstract parameter returning a tagged
  response: `raises` (any exception inside the `try` block), `noRoute`
  (empty result list) or a `route` with a waypoint order and per-leg
  durations.  Leg durations are carried already rounded to minutes, since
  no claim depends on the seconds→minutes rounding at that boundary.
* Display-only enrichment fields (image URL, tags, tips, summaries,
  rating, review count) and the advisory suggestion list are not modelled:
  no claim reads them and they never feed back into scheduling.
-/

namespace TravelAgent

/-- One entry of the cached Forest Circuit route: `{id, travel_to_next_min}`. -/
structure RouteItem where
  id : String
  travel_to_next_min : Nat
  deriving Repr, DecidableEq

/-- Sum of the `travel_to_next_min` fields of a list of route items. -/
def sumTravel (l : List RouteItem) : Nat :=
  (l.map RouteItem.travel_to_next_min).sum

/-- Force the last element's `travel_to_next_min` to zero
(`result[-1]['travel_to_next_min'] = 0`); identity on the empty list. -/
def setLastTravelZero : List RouteItem → List RouteItem
  | [] => []
  | [i] => [{ i with travel_to_next_min := 0 }]
  | i :: rest => i :: setLastTravelZero rest

/-- The accumulating loop of `_get_forest_route_for_selection`: walk the
cached circuit; a selected stop is emitted with the accumulated travel time
of the unselected stops since the previous selected stop added to its own;
an unselected stop only adds its travel time to the accumulator. -/
def forest_filter_loop (selected_ids : List String) : Nat → List RouteItem → List RouteItem
  | _, [] => []
  | acc, item :: rest =>
    if item.id ∈ selected_ids then
      ⟨item.id, acc + item.travel_to_next_min⟩ :: forest_filter_loop selected_ids 0 rest
    else
      forest_filter_loop selected_ids (acc + item.travel_to_next_min) rest

/-- `ItineraryScheduler._get_forest_route_for_selection`: filter the cached
circuit down to the selected ids, folding skipped stops' travel times into
the following selected stop, then force the last travel time to zero. -/
def get_forest_route_for_selection (forest_route : List RouteItem)
    (selected_ids : List String) : List RouteItem :=
  setLastTravelZero (forest_filter_loop selected_ids 0 forest_route)

theorem setLastTravelZero_map_id (l : List RouteItem) :
    (setLastTravelZero l).map RouteItem.id = l.map RouteItem.id := by
  induction l with
  | nil => rfl
  | cons i rest ih =>
    cases rest with
    | nil => rfl
    | cons j rest' => simpa [setLastTravelZero] using ih

theorem forest_filter_loop_map_id (sel : List String) (acc : Nat) (l : List RouteItem) :
    (forest_filter_loop sel acc l).map RouteItem.id =
      ((l.filter (fun i => i.id ∈ sel)).map RouteItem.id) := by
  induction l generalizing acc with
  | nil => rfl
  | cons i rest ih =>
    by_cases h : i.id ∈ sel
    · simp [forest_filter_loop, List.filter_cons, h, ih]
    · simp [forest_filter_loop, List.filter_cons, h, ih]

theorem forest_filter_loop_fold (sel : List String) (acc : Nat)
    (u : List RouteItem) (s : RouteItem) (rest : List RouteItem)
    (hu : ∀ x ∈ u, x.id ∉ sel) (hs : s.id ∈ sel) :
    forest_filter_loop sel acc (u ++ s :: rest) =
      ⟨s.id, acc + sumTravel u + s.travel_to_next_min⟩ ::
        forest_filter_loop sel 0 rest := by
  induction u generalizing acc with
  | nil => simp [forest_filter_loop, hs, sumTravel]
  | cons x u' ih =>
    have hx : x.id ∉ sel := hu x (by simp)
    have hu' : ∀ y ∈ u', y.id ∉ sel := fun y hy => hu y (by simp [hy])
    simp only [List.cons_append, forest_filter_loop, if_neg hx, List.append_eq]
    rw [ih _ hu']
    simp [sumTravel, Nat.add_assoc, Nat.add_comm, Nat.add_left_comm]

theorem setLastTravelZero_getLast? (l : List RouteItem) (r : RouteItem)
    (h : (setLastTravelZero l).getLast? = some r) : r.travel_to_next_min = 0 := by
  induction l with
  | nil => simp [setLastTravelZero] at h
  | cons i rest ih =>
    cases rest with
    | nil =>
      simp [setLastTravelZero] at h
      simp [← h]
    | cons j rest' =>
      obtain ⟨k, t, hkt⟩ : ∃ k t, setLastTravelZero (j :: rest') = k :: t := by
        cases rest' <;> exact ⟨_, _, rfl⟩
      rw [show setLastTravelZero (i :: j :: rest') =
            i :: setLastTravelZero (j :: rest') from rfl,
          hkt, List.getLast?_cons_cons] at h
      exact ih (by rw [hkt]; exact h)

/-- **C2** (circuit filter correctness): `_get_forest_route_for_selection`
(1) returns exactly the selected ids occurring in the cached circuit, in the
cache's relative order (its id sequence is the circuit's id sequence
filtered to the selection); (2) folds each unselected stop's travel time
into the following selected stop: on a circuit segment
`u ++ s :: rest` where nothing in `u` is selected and `s` is, the loop
emits `s` with travel time `acc + (sum of travel over u) + s's own`, then
continues with a reset accumulator; (3) the last selected stop's
`travel_to_next_min` is forced to zero. -/
theorem forest_route_selection_correct (forest_route : List RouteItem)
    (sel : List String) :
    ((get_forest_route_for_selection forest_route sel).map RouteItem.id =
        (forest_route.filter (fun i => i.id ∈ sel)).map RouteItem.id)
    ∧ (∀ (acc : Nat) (u : List RouteItem) (s : RouteItem) (rest : List RouteItem),
        (∀ x ∈ u, x.id ∉ sel) → s.id ∈ sel →
        forest_filter_loop sel acc (u ++ s :: rest) =
          ⟨s.id, acc + sumTravel u + s.travel_to_next_min⟩ ::
            forest_filter_loop sel 0 rest)
    ∧ (∀ r, (get_forest_route_for_selection forest_route sel).getLast? = some r →
        r.travel_to_next_min = 0) := by
  refine ⟨?_, ?_, ?_⟩
  · rw [get_forest_route_for_selection, setLastTravelZero_map_id,
      forest_filter_loop_map_id]
  · exact fun acc u s rest hu hs => forest_filter_loop_fold sel acc u s rest hu hs
  · exact fun r h => setLastTravelZero_getLast? _ r h

/-- A place record from the place store, flattened from the nested JSON
(`location.*`, `logic.*`, `stats.*`).  Fields read through `dict.get` with a
default become `Option`s with the default applied at the use site.
Coordinates are floats in the source but are only zero-tested and passed to
the opaque travel-time parameter, so they are carried as `Int`.
Display-only content fields are not modelled (no claim reads them). -/
structure Place where
  id : String
  name : String
  cluster_zone : Option String := none
  nearest_cluster : Option String := none
  lat : Int := 0
  lng : Int := 0
  google_place_id : String := ""
  difficulty : Option String := none
  avg_time_spent_minutes : Option Nat := none
  popularity_rank : Option Nat := none
  itinerary_include : Option Bool := none
  opening_periods : List (Option Nat) := []
  deriving Repr, DecidableEq

/-- `p.get('stats', {}).get('popularity_rank', 999)`. -/
def rank_of (p : Place) : Nat := p.popularity_rank.getD 999

/-- First element of `p :: l` with minimal `rank_of`
(`sorted(..., key=popularity_rank)[0]` with Python's stable sort). -/
def first_min_by_rank (p : Place) (l : List Place) : Place :=
  l.foldl (fun best q => if rank_of q < rank_of best then q else best) p

/-- `ItineraryScheduler._find_anchor`: the Hard-difficulty place with best
popularity rank if any Hard place exists, else the overall best-ranked
place; `none` only on an empty list. -/
def find_anchor (places : List Place) : Option Place :=
  match places.filter (fun p => p.difficulty = some "Hard") with
  | h :: t => some (first_min_by_rank h t)
  | [] =>
    match places with
    | p :: t => some (first_min_by_rank p t)
    | [] => none

/-- An ordered stop produced by `_optimize_cluster_route`:
`{'id', 'name', 'travel_to_next_min'}`. -/
structure RouteStop where
  id : String
  name : String
  travel_to_next_min : Nat
  deriving Repr, DecidableEq

/-- Force the last route stop's travel time to a given value
(`result[-1]['travel_to_next_min'] = v`). -/
def setLastStopTravel (v : Nat) : List RouteStop → List RouteStop
  | [] => []
  | [i] => [{ i with travel_to_next_min := v }]
  | i :: rest => i :: setLastStopTravel v rest

/-- Outcome of a `gmaps.directions(...)` call as observed by the scheduler:
the call raises (any exception inside the `try`), returns an empty result
list, or returns a route with `waypoint_order` and per-leg durations (leg
durations carried already rounded to minutes). -/
inductive DirResp where
  | raises : DirResp
  | noRoute : DirResp
  | route (waypoint_order : List Nat) (legs : List Nat) : DirResp
  deriving Repr, DecidableEq

/-- The Google Maps client, abstracted to its `directions` endpoint:
arguments are origin, destination and the waypoint strings. -/
structure GmapsClient where
  directions : String → String → List String → DirResp

/-- `f"place_id:{p['google_place_id']}"`. -/
def place_id_str (p : Place) : String := "place_id:" ++ p.google_place_id

/-- The shape shared by all three fallback `return`s of
`_optimize_cluster_route`: the anchor first with zero travel, then the
remaining places in input order with zero travel. -/
def fallback_route (anchor : Place) (other_places : List Place) : List RouteStop :=
  ⟨anchor.id, anchor.name, 0⟩ :: other_places.map (fun p => ⟨p.id, p.name, 0⟩)

/-- The round-trip directions request of `_optimize_cluster_route`:
origin = destination = the anchor, waypoints = the remaining places. -/
def cluster_route_call (g : GmapsClient) (anchor : Place)
    (other_places : List Place) : DirResp :=
  g.directions (place_id_str anchor) (place_id_str anchor)
    (other_places.map place_id_str)

/-- `ItineraryScheduler._optimize_cluster_route`.  The success branch
builds the anchor stop (travel = first leg), the waypoints in the oracle's
order (`travel = legs[i+1]` when in range else 0), then overwrites the last
stop's travel with the closing leg.  `other_places[wp_idx]` with an
out-of-range index raises `IndexError`, which the `except` turns into the
fallback, hence the bounds test guarding the success branch. -/
def optimize_cluster_route (gmaps : Option GmapsClient) (places : List Place)
    (hotel_cluster : String) : List RouteStop :=
  match places with
  | [] => []
  | [p] => [⟨p.id, p.name, 0⟩]
  | p0 :: p1 :: rest =>
    let anchor := (find_anchor (p0 :: p1 :: rest)).getD p0
    let other_places := (p0 :: p1 :: rest).filter (fun p => p.id ≠ anchor.id)
    match gmaps with
    | none => fallback_route anchor other_places
    | some g =>
      if other_places.isEmpty then fallback_route anchor other_places
      else
        match cluster_route_call g anchor other_places with
        | .raises => fallback_route anchor other_places
        | .noRoute => fallback_route anchor other_places
        | .route waypoint_order legs =>
          if waypoint_order.all (· < other_places.length) then
            let head : RouteStop := ⟨anchor.id, anchor.name, legs.headD 0⟩
            let tail := waypoint_order.enum.map (fun iw =>
              let place := other_places.getD iw.2 anchor
              RouteStop.mk place.id place.name (legs.getD (iw.1 + 1) 0))
            setLastStopTravel (legs.getLast?.getD 0) (head :: tail)
          else fallback_route anchor other_places

/-- The scheduler's state and injected collaborators: the Google Maps
client (if configured), the cached Forest Circuit route, the place store
indexed by id, and `_get_travel_time` abstracted as an opaque
coordinate-pair function (its float haversine fallback is not otherwise
representable; no claim depends on its values). -/
structure Scheduler where
  gmaps : Option GmapsClient
  forest_route : List RouteItem
  places_data : List (String × Place)
  travel_time : Int × Int → Int × Int → Nat

/-- Result of `rebuild_forest_route`: the scheduler state afterwards, the
returned route, and the content written to the cache file (if any). -/
structure RebuildResult where
  sched : Scheduler
  ret : List RouteItem
  written : Option (List RouteItem)

/-- The Forest Circuit places of the store, in store order
(`p.get('location',{}).get('cluster_zone') == 'Forest Circuit'`). -/
def forest_circuit_places (s : Scheduler) : List Place :=
  (s.places_data.map Prod.snd).filter (fun p => p.cluster_zone = some "Forest Circuit")

/-- The directions request of `rebuild_forest_route`:
origin = destination = the bus stand, waypoints = all circuit places. -/
def rebuild_call (g : GmapsClient) (bus_stand : Place)
    (forest_places : List Place) : DirResp :=
  g.directions (place_id_str bus_stand) (place_id_str bus_stand)
    (forest_places.map place_id_str)

/-- `ItineraryScheduler.rebuild_forest_route`.  Every failure path (no
client, fewer than two circuit places, missing bus stand, the call raising,
no route returned, or an out-of-range waypoint index raising `IndexError`)
returns the previous cache and writes nothing.  On success the rebuilt
route (interior legs only: `travel = legs[i+1]` when `i+1 < len(legs)-1`,
last entry forced to zero) is written to the cache file and installed. -/
def rebuild_forest_route (s : Scheduler) : RebuildResult :=
  match s.gmaps with
  | none => ⟨s, s.forest_route, none⟩
  | some g =>
    let forest_places := forest_circuit_places s
    if forest_places.length < 2 then ⟨s, s.forest_route, none⟩
    else
      match s.places_data.lookup "kodaikanal-bus-stand-kodaikanal" with
      | none => ⟨s, s.forest_route, none⟩
      | some bus_stand =>
        match rebuild_call g bus_stand forest_places with
        | .raises => ⟨s, s.forest_route, none⟩
        | .noRoute => ⟨s, s.forest_route, none⟩
        | .route waypoint_order legs =>
          if waypoint_order.all (· < forest_places.length) then
            let optimized := setLastTravelZero (waypoint_order.enum.map (fun iw =>
              let place := forest_places.getD iw.2 bus_stand
              RouteItem.mk place.id
                (if iw.1 + 1 < legs.length - 1 then legs.getD (iw.1 + 1) 0 else 0)))
            ⟨{ s with forest_route := optimized }, optimized, some optimized⟩
          else ⟨s, s.forest_route, none⟩

/-- Example places for the cluster-router fallback: the second place is the
only Hard one, so `_find_anchor` selects it. -/
def hardSecond : Place := { id := "p2", name := "P2", difficulty := some "Hard" }

/-- Companion first place (Easy). -/
def easyFirst : Place := { id := "p1", name := "P1", difficulty := some "Easy" }

/-- **C8 counterexample**: with the oracle absent, `_optimize_cluster_route`
on `[easyFirst, hardSecond]` returns the anchor (`p2`, the Hard place)
first — `[p2, p1]` — not the input order `[p1, p2]`, refuting the claim
that the fallback preserves input order. -/
theorem cluster_route_fallback_not_input_order :
    ((optimize_cluster_route none [easyFirst, hardSecond] "Town Center").map
        RouteStop.id = ["p2", "p1"])
    ∧ [easyFirst, hardSecond].map Place.id = ["p1", "p2"]
    ∧ (optimize_cluster_route none [easyFirst, hardSecond] "Town Center").map
        RouteStop.id ≠ [easyFirst, hardSecond].map Place.id := by
  refine ⟨by decide, by decide, by decide⟩

/-- **C8 (amended)**: for ≥ 2 places, when the oracle is absent, raises, or
returns no route, `_optimize_cluster_route` falls back to the anchor first
followed by the remaining places in input order, with every
`travel_to_next` equal to zero (`fallback_route`); input order is preserved
only among the non-anchor places. -/
theorem optimize_cluster_route_fallback_anchor_first (gmaps : Option GmapsClient)
    (places : List Place) (hotel_cluster : String) (a : Place)
    (h2 : 2 ≤ places.length) (ha : find_anchor places = some a)
    (hfail : gmaps = none ∨ ∃ g, gmaps = some g ∧
      (cluster_route_call g a (places.filter (fun p => p.id ≠ a.id)) = DirResp.raises ∨
       cluster_route_call g a (places.filter (fun p => p.id ≠ a.id)) = DirResp.noRoute)) :
    optimize_cluster_route gmaps places hotel_cluster =
      fallback_route a (places.filter (fun p => p.id ≠ a.id)) := by
  match places, h2 with
  | p0 :: p1 :: rest, _ =>
    have hanch : (find_anchor (p0 :: p1 :: rest)).getD p0 = a := by rw [ha]; rfl
    rcases hfail with hnone | ⟨g, hg, hresp⟩
    · subst hnone
      simp only [optimize_cluster_route, hanch]
    · subst hg
      simp only [optimize_cluster_route, hanch]
      by_cases he : ((p0 :: p1 :: rest).filter (fun p => p.id ≠ a.id)).isEmpty = true
      · rw [if_pos he]
      · rw [if_neg he]
        rcases hresp with h | h <;> rw [h]

theorem optimize_cluster_route_fallback_anchor_first_witness :
    2 ≤ ([easyFirst, hardSecond] : List Place).length
    ∧ find_anchor [easyFirst, hardSecond] = some hardSecond
    ∧ optimize_cluster_route none [easyFirst, hardSecond] "Town Center" =
        fallback_route hardSecond
          ([easyFirst, hardSecond].filter (fun p => p.id ≠ hardSecond.id)) :=
  ⟨by decide, by decide,
    optimize_cluster_route_fallback_anchor_first none [easyFirst, hardSecond]
      "Town Center" hardSecond (by decide) (by decide) (Or.inl rfl)⟩

/-- **C9** (rebuild atomicity): whenever `rebuild_forest_route` finds the
route oracle unavailable (`gmaps = none`), or the directions call for the
bus-stand round trip raises or returns no route, the scheduler state (in
particular the cached circuit route) is unchanged, nothing is written to
the cache file, and the old cache is returned rather than an error. -/
theorem rebuild_forest_route_atomic (s : Scheduler)
    (hfail : s.gmaps = none ∨
      (∀ g, s.gmaps = some g → ∀ bus_stand,
        s.places_data.lookup "kodaikanal-bus-stand-kodaikanal" = some bus_stand →
        (rebuild_call g bus_stand (forest_circuit_places s) = DirResp.raises ∨
         rebuild_call g bus_stand (forest_circuit_places s) = DirResp.noRoute))) :
    rebuild_forest_route s = ⟨s, s.forest_route, none⟩ := by
  rcases hfail with hnone | hresp
  · simp only [rebuild_forest_route, hnone]
  · cases hg : s.gmaps with
    | none => simp only [rebuild_forest_route, hg]
    | some g =>
      simp only [rebuild_forest_route, hg]
      by_cases hlen : (forest_circuit_places s).length < 2
      · rw [if_pos hlen]
      · rw [if_neg hlen]
        cases hbus : s.places_data.lookup "kodaikanal-bus-stand-kodaikanal" with
        | none => rfl
        | some bus_stand =>
          rcases hresp g hg bus_stand hbus with h | h <;> simp only [h]

/-- An oracle-less scheduler over an empty store, for witnesses. -/
def bareSched : Scheduler :=
  { gmaps := none, forest_route := [⟨"guna-cave-kodaikanal", 1⟩],
    places_data := [], travel_time := fun _ _ => 5 }

theorem rebuild_forest_route_atomic_witness :
    rebuild_forest_route bareSched =
      ⟨bareSched, bareSched.forest_route, none⟩ :=
  rebuild_forest_route_atomic bareSched (Or.inl rfl)

/-- `CLUSTER_ORDER`. -/
def CLUSTER_ORDER : List String :=
  ["Town Center", "Forest Circuit", "Vattakanal", "Poombarai"]

/-- The zone-name → places dict, embedded as an association list in
insertion order (Python 3.7+ dict semantics). -/
abbrev Clusters := List (String × List Place)

/-- The dict's keys in iteration order. -/
def dict_keys (l : Clusters) : List String := l.map Prod.fst

/-- `d[k]` for a key known to be present (`.getD []` is never hit on the
paths the source exercises). -/
def dict_get (l : Clusters) (k : String) : List Place := (l.lookup k).getD []

/-- Python dict assignment `d[k] = v`: overwrite in place if the key
exists, else append at the end. -/
def dict_set : Clusters → String → List Place → Clusters
  | [], k, v => [(k, v)]
  | (k', v') :: rest, k, v =>
    if k' = k then (k, v) :: rest else (k', v') :: dict_set rest k v

/-- Python `del d[k]`: drop the entry with that key. -/
def dict_del : Clusters → String → Clusters
  | [], _ => []
  | (k', v') :: rest, k => if k' = k then rest else (k', v') :: dict_del rest k

/-- `clusters[key].append(place)`. -/
def bucket_append (l : Clusters) (k : String) (p : Place) : Clusters :=
  l.map (fun e => if e.1 = k then (e.1, e.2 ++ [p]) else e)

/-- The bucket a place lands in inside `_assign_to_clusters`: Outskirts
places go to their `nearest_cluster` hint when it names a known zone, else
to Town Center; other places go to their own zone when known, else to
Town Center. -/
def bucket_key (clusters : Clusters) (p : Place) : String :=
  let cluster := p.cluster_zone.getD "Town Center"
  if cluster = "Outskirts" then
    let nearest := p.nearest_cluster.getD "Town Center"
    if (clusters.lookup nearest).isSome then nearest else "Town Center"
  else if (clusters.lookup cluster).isSome then cluster else "Town Center"

/-- `ItineraryScheduler._assign_to_clusters`. -/
def assign_to_clusters (places : List Place) : Clusters :=
  places.foldl (fun cs p => bucket_append cs (bucket_key cs p) p)
    (CLUSTER_ORDER.map (fun c => (c, ([] : List Place))))

/-- Pairs `(names[i], names[j])`, `i < j`, in the double-loop order of
`_merge_clusters`. -/
def key_pairs : List String → List (String × String)
  | [] => []
  | k :: rest => rest.map (fun k2 => (k, k2)) ++ key_pairs rest

/-- The pair of clusters with the fewest combined places, first-found
winning ties (`min_combined` starts at infinity and is updated on strict
improvement). -/
def pick_merge_pair (l : Clusters) : Option (String × String) :=
  match key_pairs (dict_keys l) with
  | [] => none
  | pr :: rest =>
    some (rest.foldl (fun best q =>
      if (dict_get l q.1).length + (dict_get l q.2).length <
          (dict_get l best.1).length + (dict_get l best.2).length then q
      else best) pr)

/-- One merge: `active[f"{c1} + {c2}"] = active[c1] + active[c2]`, then
`del active[c1]`, then `del active[c2]`. -/
def merge_step (l : Clusters) (c1 c2 : String) : Clusters :=
  dict_del (dict_del
    (dict_set l (c1 ++ " + " ++ c2) (dict_get l c1 ++ dict_get l c2)) c1) c2

/-- The `while` loop of `_merge_clusters`, with explicit fuel (each
iteration strictly shrinks the dict, so `active.length` fuel suffices). -/
def merge_loop (num_days : Nat) : Nat → Clusters → Clusters
  | 0, l => l
  | fuel + 1, l =>
    if num_days < l.length ∧ 1 < l.length then
      match pick_merge_pair l with
      | some pr => merge_loop num_days fuel (merge_step l pr.1 pr.2)
      | none => l
    else l

/-- `ItineraryScheduler._merge_clusters`: keep the non-empty zones, then
merge the smallest pair while more zones than days remain. -/
def merge_clusters (clusters : Clusters) (num_days : Nat) : Clusters :=
  let active := clusters.filter (fun e => !e.2.isEmpty)
  merge_loop num_days active.length active

/-- Number of non-empty zones of a cluster dict. -/
def count_nonempty (l : Clusters) : Nat :=
  (l.filter (fun e => !e.2.isEmpty)).length

theorem dict_keys_cons (e : String × List Place) (rest : Clusters) :
    dict_keys (e :: rest) = e.1 :: dict_keys rest := rfl

theorem dict_set_keys (l : Clusters) (k : String) (v : List Place) :
    dict_keys (dict_set l k v) =
      if k ∈ dict_keys l then dict_keys l else dict_keys l ++ [k] := by
  induction l with
  | nil => simp [dict_set, dict_keys]
  | cons e rest ih =>
    obtain ⟨k', v'⟩ := e
    by_cases h : k' = k
    · subst h
      have hstep : dict_set ((k', v') :: rest) k' v = (k', v) :: rest := by
        simp [dict_set]
      rw [hstep, dict_keys_cons, dict_keys_cons,
        if_pos (by exact List.mem_cons_self _ _)]
    · have hstep : dict_set ((k', v') :: rest) k v = (k', v') :: dict_set rest k v := by
        simp [dict_set, h]
      by_cases hm : k ∈ dict_keys rest
      · have hmem : k ∈ dict_keys ((k', v') :: rest) := by
          rw [dict_keys_cons]
          exact List.mem_cons_of_mem _ hm
        rw [if_pos hmem, hstep, dict_keys_cons, dict_keys_cons, ih, if_pos hm]
      · have hnm : k ∉ dict_keys ((k', v') :: rest) := by
          rw [dict_keys_cons]
          simp only [List.mem_cons]
          rintro (h1 | h1)
          · exact h h1.symm
          · exact hm h1
        rw [if_neg hnm, hstep, dict_keys_cons, dict_keys_cons, ih, if_neg hm]
        rfl

theorem dict_del_keys (l : Clusters) (k : String) :
    dict_keys (dict_del l k) = (dict_keys l).erase k := by
  induction l with
  | nil => rfl
  | cons e rest ih =>
    obtain ⟨k', v'⟩ := e
    by_cases h : k' = k
    · subst h
      have hstep : dict_del ((k', v') :: rest) k' = rest := by simp [dict_del]
      rw [hstep, dict_keys_cons, List.erase_cons_head]
    · have hstep : dict_del ((k', v') :: rest) k = (k', v') :: dict_del rest k := by
        simp [dict_del, h]
      rw [hstep, dict_keys_cons, dict_keys_cons,
        List.erase_cons_tail (by simpa using h), ih]

theorem dict_keys_length (l : Clusters) : (dict_keys l).length = l.length := by
  simp [dict_keys]

theorem merge_step_length_lt (l : Clusters) (c1 c2 : String)
    (h1 : c1 ∈ dict_keys l) (h2 : c2 ∈ dict_keys l) (hne : c1 ≠ c2) :
    (merge_step l c1 c2).length < l.length := by
  set m := dict_set l (c1 ++ " + " ++ c2) (dict_get l c1 ++ dict_get l c2) with hm
  have hmlen : m.length ≤ l.length + 1 := by
    rw [← dict_keys_length, ← dict_keys_length l, dict_set_keys]
    split <;> simp
  have hc1m : c1 ∈ dict_keys m := by
    rw [hm, dict_set_keys]
    split <;> simp [h1]
  have hdel1 : (dict_del m c1).length + 1 = m.length := by
    rw [← dict_keys_length, ← dict_keys_length m, dict_del_keys]
    exact List.length_erase_add_one hc1m
  have hc2d : c2 ∈ dict_keys (dict_del m c1) := by
    rw [dict_del_keys]
    refine (List.mem_erase_of_ne (Ne.symm hne)).mpr ?_
    rw [hm, dict_set_keys]
    split <;> simp [h2]
  have hdel2 : (merge_step l c1 c2).length + 1 = (dict_del m c1).length := by
    rw [merge_step, ← hm, ← dict_keys_length, ← dict_keys_length (dict_del m c1),
      dict_del_keys]
    exact List.length_erase_add_one hc2d
  omega

theorem merge_step_keys_nodup (l : Clusters) (c1 c2 : String)
    (h : (dict_keys l).Nodup) : (dict_keys (merge_step l c1 c2)).Nodup := by
  rw [merge_step, dict_del_keys, dict_del_keys, dict_set_keys]
  split
  · exact (h.erase c1).erase c2
  · rename_i hfresh
    have hdj : (dict_keys l).Disjoint [c1 ++ " + " ++ c2] := by
      intro x hx hx'
      simp only [List.mem_singleton] at hx'
      subst hx'
      exact hfresh hx
    exact (((h.append (List.nodup_singleton _) hdj).erase c1).erase c2)

theorem key_pairs_mem_split {ks : List String} {a b : String}
    (h : (a, b) ∈ key_pairs ks) :
    ∃ l1 l2 l3, ks = l1 ++ a :: l2 ++ b :: l3 := by
  induction ks with
  | nil => simp [key_pairs] at h
  | cons k rest ih =>
    rw [key_pairs, List.mem_append] at h
    rcases h with h | h
    · simp only [List.mem_map, Prod.mk.injEq] at h
      obtain ⟨b', hb', hk, hb⟩ := h
      obtain ⟨u, w, huw⟩ := List.append_of_mem hb'
      exact ⟨[], u, w, by simp [← hk, hb, huw]⟩
    · obtain ⟨l1, l2, l3, hsplit⟩ := ih h
      exact ⟨k :: l1, l2, l3, by simp [hsplit]⟩

theorem split_mem_ne {ks : List String} {a b : String}
    {l1 l2 l3 : List String} (hsplit : ks = l1 ++ a :: l2 ++ b :: l3)
    (hnd : ks.Nodup) : a ≠ b ∧ a ∈ ks ∧ b ∈ ks := by
  subst hsplit
  refine ⟨?_,
    List.mem_append_left _ (List.mem_append_right l1 (List.mem_cons_self _ _)),
    List.mem_append_right _ (List.mem_cons_self _ _)⟩
  rcases List.nodup_append.mp hnd with ⟨-, -, hdisj⟩
  intro hab
  exact hdisj (List.mem_append_right l1 (List.mem_cons_self _ _))
    (by rw [hab]; exact List.mem_cons_self _ _)

theorem foldl_choice_mem {α : Type} (f : α → α → α)
    (hf : ∀ b q, f b q = q ∨ f b q = b) (rest : List α) (pr : α) :
    rest.foldl f pr ∈ pr :: rest := by
  induction rest generalizing pr with
  | nil => simp
  | cons x xs ih =>
    simp only [List.foldl_cons]
    rcases hf pr x with h | h <;> rw [h]
    · have := ih x
      simp only [List.mem_cons] at this ⊢
      tauto
    · have := ih pr
      simp only [List.mem_cons] at this ⊢
      tauto

theorem pick_merge_pair_mem {l : Clusters} {pr : String × String}
    (h : pick_merge_pair l = some pr) : pr ∈ key_pairs (dict_keys l) := by
  rw [pick_merge_pair] at h
  cases hkp : key_pairs (dict_keys l) with
  | nil =>
    rw [hkp] at h
    exact absurd h (by simp)
  | cons p0 rest =>
    rw [hkp] at h
    simp only [Option.some.injEq] at h
    rw [← h]
    exact foldl_choice_mem _ (fun b q => by split <;> simp) rest p0

theorem key_pairs_ne_nil {ks : List String} (h : 2 ≤ ks.length) :
    key_pairs ks ≠ [] := by
  match ks, h with
  | a :: b :: rest, _ => simp [key_pairs]

theorem merge_loop_bound (num_days : Nat) (fuel : Nat) :
    ∀ l : Clusters, (dict_keys l).Nodup →
    l.length ≤ fuel + max num_days 1 →
    (merge_loop num_days fuel l).length ≤ max num_days 1 := by
  induction fuel with
  | zero =>
    intro l _ hlen
    simpa [merge_loop] using hlen
  | succ f ih =>
    intro l hnd hlen
    rw [merge_loop]
    by_cases hguard : num_days < l.length ∧ 1 < l.length
    · rw [if_pos hguard]
      have h2 : 2 ≤ (dict_keys l).length := by
        rw [dict_keys_length]
        omega
      cases hpk : pick_merge_pair l with
      | none =>
        exfalso
        cases hkp : key_pairs (dict_keys l) with
        | nil => exact key_pairs_ne_nil h2 hkp
        | cons p0 rest =>
          rw [pick_merge_pair, hkp] at hpk
          exact absurd hpk (by simp)
      | some pr =>
        obtain ⟨c1, c2⟩ := pr
        obtain ⟨l1, l2, l3, hsplit⟩ := key_pairs_mem_split (pick_merge_pair_mem hpk)
        obtain ⟨hne, hm1, hm2⟩ := split_mem_ne hsplit hnd
        have hmem1 : c1 ∈ dict_keys l := hsplit ▸ hm1
        have hmem2 : c2 ∈ dict_keys l := hsplit ▸ hm2
        have hlt := merge_step_length_lt l c1 c2 hmem1 hmem2 hne
        exact ih (merge_step l c1 c2) (merge_step_keys_nodup l c1 c2 hnd) (by omega)
    · rw [if_neg hguard]
      have : l.length ≤ num_days ∨ l.length ≤ 1 := by
        by_contra hc
        push_neg at hc
        exact hguard ⟨by omega, by omega⟩
      omega

theorem count_nonempty_le_length (l : Clusters) : count_nonempty l ≤ l.length :=
  List.length_filter_le _ l

/-- A Town Center example place. -/
def bryantPark : Place := { id := "bryant-park-kodaikanal", name := "Bryant Park" }

/-- A Vattakanal example place. -/
def dolphinNose : Place :=
  { id := "dolphin-nose-kodaikanal", name := "Dolphin Nose",
    cluster_zone := some "Vattakanal" }

/-- **C6 counterexample**: with `num_days = 0` (reachable: `num_days` is
read from the user config with no lower-bound validation) and two non-empty
zones, merging stops at one zone: the non-empty zone count (1) exceeds
`num_days` (0), yet the mapping did not start at 1 zone — refuting the
claim as stated for every requested `num_days`. -/
theorem merge_bound_fails_for_zero_days :
    count_nonempty [("Town Center", [bryantPark]), ("Vattakanal", [dolphinNose])] = 2
    ∧ count_nonempty (merge_clusters
        [("Town Center", [bryantPark]), ("Vattakanal", [dolphinNose])] 0) = 1 := by
  constructor
  · rfl
  · rfl

/-- **C6 (amended)**: for every zone-to-places mapping (a dict: keys are
distinct) and every `num_days ≥ 1`, after cluster merging the number of
non-empty zones is ≤ `num_days` (the started-at-1 escape clause is
subsumed: the loop always stops at ≤ max(num_days, 1) zones).  For
`num_days = 0` only the bound `≤ 1` holds. -/
theorem merge_clusters_count_bound (clusters : Clusters) (num_days : Nat)
    (hkeys : (dict_keys clusters).Nodup) :
    count_nonempty (merge_clusters clusters num_days) ≤ max num_days 1
    ∧ (1 ≤ num_days →
        count_nonempty (merge_clusters clusters num_days) ≤ num_days) := by
  have hsub : (dict_keys (clusters.filter (fun e => !e.2.isEmpty))).Sublist
      (dict_keys clusters) :=
    (List.filter_sublist clusters).map Prod.fst
  have hnd : (dict_keys (clusters.filter (fun e => !e.2.isEmpty))).Nodup :=
    hkeys.sublist hsub
  have hbound := merge_loop_bound num_days
    (clusters.filter (fun e => !e.2.isEmpty)).length
    (clusters.filter (fun e => !e.2.isEmpty)) hnd (by omega)
  have hcount := count_nonempty_le_length
    (merge_loop num_days (clusters.filter (fun e => !e.2.isEmpty)).length
      (clusters.filter (fun e => !e.2.isEmpty)))
  constructor
  · rw [merge_clusters]
    omega
  · intro h1
    rw [merge_clusters]
    have : max num_days 1 = num_days := by omega
    omega

theorem merge_clusters_count_bound_witness :
    (dict_keys [("Town Center", [bryantPark])]).Nodup
    ∧ count_nonempty (merge_clusters [("Town Center", [bryantPark])] 2) ≤ 2 :=
  ⟨by decide,
    (merge_clusters_count_bound [("Town Center", [bryantPark])] 2
      (by decide)).2 (by omega)⟩

/-- A scheduled stop: a place's data denormalized into a day
(`enriched` entries), plus the fields added by the time simulation.
Simulation fields default to the "key absent" state; `scheduled_min` /
`departure_min` are the numeric minute values whose zero-padded rendering
the source stores in `scheduled_time` / `departure_time`. -/
structure Stop where
  id : String
  name : String
  cluster : String
  avg_time_minutes : Nat
  difficulty : String
  travel_to_next_min : Nat
  is_forest_circuit : Bool := false
  has_lunch_before : Bool := false
  scheduled_time : String := ""
  departure_time : String := ""
  scheduled_min : Nat := 0
  departure_min : Nat := 0
  warning : Option String := none
  deriving Repr, DecidableEq

/-- A day record.  Hotel-transfer fields are `Option`s (keys added only
when a hotel location is supplied). -/
structure Day where
  day : Nat
  cluster : String
  places : List Stop
  total_drive_min : Nat
  place_count : Nat
  is_split : Bool := false
  start_time : String := ""
  end_time : String := ""
  target_end_time : String := ""
  hotel_to_first_min : Option Nat := none
  last_to_hotel_min : Option Nat := none
  hotel_depart_min : Option Int := none
  hotel_name : Option String := none
  deriving Repr, DecidableEq

/-- Python's `needle in hay` substring test. -/
def contains_sub (needle hay : String) : Bool := decide (needle.data <:+: hay.data)

/-- Sum of travel times over stops
(`sum(p.get('travel_to_next_min', 0) for p in ...)`). -/
def stops_travel_sum (l : List Stop) : Nat := (l.map Stop.travel_to_next_min).sum

/-- The splitter's day cost: visit + travel minutes plus a 30-minute bonus
per Hard place. -/
def day_cost (d : Day) : Nat :=
  (d.places.map (fun p => p.avg_time_minutes + p.travel_to_next_min)).sum
    + 30 * (d.places.filter (fun p => p.difficulty = "Hard")).length

/-- First (index, day) with maximal `day_cost` — the head of the stable
descending sort of `_split_days_if_needed`. -/
def pick_longest (l : List (Nat × Day)) : Option (Nat × Day) :=
  match l with
  | [] => none
  | x :: xs =>
    some (xs.foldl (fun best q =>
      if day_cost best.2 < day_cost q.2 then q else best) x)

/-- The day the loop body of `_split_days_if_needed` chooses to split, with
its index in `days`: `none` models a `break` (no days, only circuit days,
or the longest splittable day has ≤ 2 places).  Days whose cluster label
contains `'Forest Circuit'` are excluded before the cost ranking. -/
def split_choice (days : List Day) : Option (Nat × Day) :=
  if days.isEmpty then none
  else
    (pick_longest (days.enum.filter
      (fun e => !(contains_sub "Forest Circuit" e.2.cluster)))).bind
      (fun il => if il.2.places.length ≤ 2 then none else some il)

/-- Perform the split of the chosen day: it keeps the first half of its
places (midpoint `len // 2`), and a `"<cluster> (Part 2)"` day with the
second half is appended.  The in-place mutation of the chosen day object
becomes an indexed update. -/
def do_split (days : List Day) (il : Nat × Day) : List Day :=
  (days.set il.1 { il.2 with
    places := il.2.places.take (il.2.places.length / 2),
    place_count := (il.2.places.take (il.2.places.length / 2)).length,
    total_drive_min := stops_travel_sum (il.2.places.take (il.2.places.length / 2)) })
  ++ [{ day := days.length + 1,
        cluster := il.2.cluster ++ " (Part 2)",
        places := il.2.places.drop (il.2.places.length / 2),
        total_drive_min := stops_travel_sum (il.2.places.drop (il.2.places.length / 2)),
        place_count := (il.2.places.drop (il.2.places.length / 2)).length,
        is_split := true }]

/-- One iteration of the `while` loop of `_split_days_if_needed`. -/
def split_once (days : List Day) : Option (List Day) :=
  (split_choice days).map (do_split days)

/-- The `while len(days) < num_days` loop, with fuel (each iteration grows
`days` by one or breaks, so `num_days` fuel is enough). -/
def split_loop (num_days : Nat) : Nat → List Day → List Day
  | 0, days => days
  | fuel + 1, days =>
    if days.length < num_days then
      match split_once days with
      | some days2 => split_loop num_days fuel days2
      | none => days
    else days

/-- Renumber days sequentially (`day['day'] = i + 1`). -/
def renumber (days : List Day) : List Day :=
  days.enum.map (fun e => { e.2 with day := e.1 + 1 })

/-- `ItineraryScheduler._split_days_if_needed` (the `pace` argument is
unused in the source as well). -/
def split_days_if_needed (days : List Day) (num_days : Nat)
    (pace : String) : List Day :=
  renumber (split_loop num_days num_days days)

theorem pick_longest_mem {l : List (Nat × Day)} {x : Nat × Day}
    (h : pick_longest l = some x) : x ∈ l := by
  cases l with
  | nil => exact absurd h (by simp [pick_longest])
  | cons y ys =>
    rw [pick_longest] at h
    simp only [Option.some.injEq] at h
    rw [← h]
    exact foldl_choice_mem _ (fun b q => by split <;> simp) ys y

theorem split_choice_spec {days : List Day} {il : Nat × Day}
    (h : split_choice days = some il) :
    il ∈ days.enum.filter (fun e => !(contains_sub "Forest Circuit" e.2.cluster))
    ∧ 2 < il.2.places.length := by
  rw [split_choice] at h
  by_cases hemp : days.isEmpty
  · rw [if_pos hemp] at h
    cases h
  · rw [if_neg hemp] at h
    obtain ⟨jl, hjl, hf⟩ := Option.bind_eq_some.mp h
    by_cases hle : jl.2.places.length ≤ 2
    · rw [if_pos hle] at hf
      cases hf
    · rw [if_neg hle] at hf
      cases hf
      exact ⟨pick_longest_mem hjl, by omega⟩

theorem split_choice_idx {days : List Day} {il : Nat × Day}
    (h : split_choice days = some il) :
    days[il.1]? = some il.2
    ∧ contains_sub "Forest Circuit" il.2.cluster = false := by
  obtain ⟨hmem, -⟩ := split_choice_spec h
  obtain ⟨henum, hpred⟩ := List.mem_filter.mp hmem
  obtain ⟨i, d⟩ := il
  refine ⟨List.mk_mem_enum_iff_getElem?.mp henum, ?_⟩
  simpa using hpred

theorem split_once_keeps_forest {days days2 : List Day}
    (h : split_once days = some days2) {d : Day} (hd : d ∈ days)
    (hf : contains_sub "Forest Circuit" d.cluster = true) : d ∈ days2 := by
  obtain ⟨il, hchoice, hdo⟩ := Option.map_eq_some'.mp h
  obtain ⟨hidx, hpred⟩ := split_choice_idx hchoice
  have hne : d ≠ il.2 := by
    intro he
    rw [← he] at hpred
    rw [hf] at hpred
    cases hpred
  obtain ⟨j, hj⟩ := List.mem_iff_getElem?.mp hd
  have hjne : il.1 ≠ j := by
    intro he
    rw [← he, hidx] at hj
    exact hne (Option.some.inj hj).symm
  rw [← hdo]
  refine List.mem_append_left _ (List.mem_iff_getElem?.mpr ⟨j, ?_⟩)
  rw [List.getElem?_set_ne hjne]
  exact hj

theorem split_loop_keeps_forest (n : Nat) (fuel : Nat) :
    ∀ (days : List Day) (d : Day), d ∈ days →
    contains_sub "Forest Circuit" d.cluster = true →
    d ∈ split_loop n fuel days := by
  induction fuel with
  | zero =>
    intro days d hd _
    simpa [split_loop] using hd
  | succ f ih =>
    intro days d hd hf
    rw [split_loop]
    by_cases hlt : days.length < n
    · rw [if_pos hlt]
      cases hso : split_once days with
      | none => exact hd
      | some days2 => exact ih days2 d (split_once_keeps_forest hso hd hf) hf
    · rw [if_neg hlt]
      exact hd

theorem renumber_cluster_places {days : List Day} {d : Day} (hd : d ∈ days) :
    ∃ d' ∈ renumber days, d'.cluster = d.cluster ∧ d'.places = d.places := by
  obtain ⟨i, hi⟩ := List.mem_iff_getElem?.mp hd
  refine ⟨{ d with day := i + 1 }, ?_, rfl, rfl⟩
  rw [renumber]
  exact List.mem_map.mpr ⟨(i, d), List.mk_mem_enum_iff_getElem?.mpr hi, rfl⟩

theorem split_once_nonempty {days days2 : List Day}
    (h : split_once days = some days2) (hne : ∀ d ∈ days, d.places ≠ []) :
    ∀ d ∈ days2, d.places ≠ [] := by
  obtain ⟨il, hchoice, hdo⟩ := Option.map_eq_some'.mp h
  obtain ⟨-, hgt⟩ := split_choice_spec hchoice
  subst hdo
  intro d hd
  rcases List.mem_append.mp hd with hd | hd
  · rcases List.mem_or_eq_of_mem_set hd with hd | hd
    · exact hne d hd
    · subst hd
      intro hemp
      have hlen : (il.2.places.take (il.2.places.length / 2)).length = 0 := by
        rw [show il.2.places.take (il.2.places.length / 2) = [] from hemp]
        rfl
      rw [List.length_take] at hlen
      omega
  · simp only [List.mem_singleton] at hd
    subst hd
    intro hemp
    have hlen : (il.2.places.drop (il.2.places.length / 2)).length = 0 := by
      rw [show il.2.places.drop (il.2.places.length / 2) = [] from hemp]
      rfl
    rw [List.length_drop] at hlen
    omega

theorem split_loop_nonempty (n : Nat) (fuel : Nat) :
    ∀ (days : List Day), (∀ d ∈ days, d.places ≠ []) →
    ∀ d ∈ split_loop n fuel days, d.places ≠ [] := by
  induction fuel with
  | zero =>
    intro days hne
    simpa [split_loop] using hne
  | succ f ih =>
    intro days hne
    rw [split_loop]
    by_cases hlt : days.length < n
    · rw [if_pos hlt]
      cases hso : split_once days with
      | none => exact hne
      | some days2 => exact ih days2 (split_once_nonempty hso hne)
    · rw [if_neg hlt]
      exact hne

/-- The three-place day used to refute C4 as stated. -/
def threePlaceDay : Day :=
  { day := 1, cluster := "Town Center",
    places := [
      { id := "a", name := "a", cluster := "Town Center",
        avg_time_minutes := 60, difficulty := "Easy", travel_to_next_min := 0 },
      { id := "b", name := "b", cluster := "Town Center",
        avg_time_minutes := 60, difficulty := "Easy", travel_to_next_min := 0 },
      { id := "c", name := "c", cluster := "Town Center",
        avg_time_minutes := 60, difficulty := "Easy", travel_to_next_min := 0 }],
    total_drive_min := 0, place_count := 3 }

/-- **C4 counterexample**: splitting a single 3-place day to reach
`num_days = 2` yields halves of sizes 1 and 2 (`mid = 3 // 2 = 1`): the
splitter does produce a day containing a single place as a side effect of
a split, refuting the claim's first conjunct. -/
theorem split_produces_single_place_day :
    ([threePlaceDay].map (fun d => d.places.length) = [3])
    ∧ ((split_days_if_needed [threePlaceDay] 2 "medium").map
        (fun d => d.places.length) = [1, 2]) := by
  exact ⟨rfl, rfl⟩

/-- **C4 (amended)**: the Day Splitter never splits a day whose cluster
label contains `"Forest Circuit"` — every such input day reappears in the
output with its cluster label and place list unchanged — and both halves
of every split are non-empty (so no empty day is ever produced); however a
single-place day can arise as the first half of splitting a 3-place day
(see the counterexample). -/
theorem split_days_guard (days : List Day) (num_days : Nat) (pace : String) :
    (∀ d ∈ days, contains_sub "Forest Circuit" d.cluster = true →
      ∃ d' ∈ split_days_if_needed days num_days pace,
        d'.cluster = d.cluster ∧ d'.places = d.places)
    ∧ ((∀ d ∈ days, d.places ≠ []) →
        ∀ d' ∈ split_days_if_needed days num_days pace, d'.places ≠ []) := by
  constructor
  · intro d hd hf
    exact renumber_cluster_places
      (split_loop_keeps_forest num_days num_days days d hd hf)
  · intro hne d' hd'
    rw [split_days_if_needed, renumber] at hd'
    obtain ⟨e, he, hmap⟩ := List.mem_map.mp hd'
    have : e.2 ∈ split_loop num_days num_days days := by
      obtain ⟨i, x⟩ := e
      exact List.mem_iff_getElem?.mpr ⟨i, List.mk_mem_enum_iff_getElem?.mp he⟩
    have hp := split_loop_nonempty num_days num_days days hne e.2 this
    rw [← hmap]
    exact hp

/-- The forest day used for the C4 witness. -/
def forestDayC4 : Day :=
  { day := 1, cluster := "Forest Circuit",
    places := [
      { id := "pine-forest-kodaikanal", name := "Pine Forest",
        cluster := "Forest Circuit", avg_time_minutes := 60,
        difficulty := "Easy", travel_to_next_min := 3 }],
    total_drive_min := 3, place_count := 1 }

theorem split_days_guard_witness :
    (∃ d' ∈ split_days_if_needed [forestDayC4, threePlaceDay] 3 "medium",
      d'.cluster = forestDayC4.cluster ∧ d'.places = forestDayC4.places)
    ∧ (∀ d' ∈ split_days_if_needed [forestDayC4, threePlaceDay] 3 "medium",
        d'.places ≠ []) :=
  ⟨(split_days_guard [forestDayC4, threePlaceDay] 3 "medium").1 forestDayC4
      (by simp) (by decide),
    (split_days_guard [forestDayC4, threePlaceDay] 3 "medium").2
      (by decide)⟩

/-- `LUNCH_BREAK_TIME * 60`: the float `13.5 * 60 = 810.0`, exact. -/
def LUNCH_BREAK_TIME_MIN : Nat := 810

/-- `LUNCH_BREAK_DURATION` (minutes). -/
def LUNCH_BREAK_DURATION : Nat := 90

/-- Per-day state of the time-budget simulation loop in `build_itinerary`:
the running clock (minutes from midnight), the lunch flag, and the
kept/overflow partition built so far. -/
structure SimState where
  current_time : Nat
  lunch_inserted : Bool
  keep : List Stop
  overflow : List Stop
  deriving Repr, DecidableEq

/-- `f"{h:02d}:{mm:02d}"` of a minutes-from-midnight clock value. -/
def fmt_time (m : Nat) : String :=
  let h := m / 60
  let mm := m % 60
  (if h < 10 then "0" ++ toString h else toString h) ++ ":" ++
    (if mm < 10 then "0" ++ toString mm else toString mm)

/-- `needs_lunch`: no lunch inserted yet and the clock has reached
`LUNCH_BREAK_TIME * 60 - 30`. -/
def needs_lunch_at (st : SimState) : Bool :=
  !st.lunch_inserted && decide (LUNCH_BREAK_TIME_MIN - 30 ≤ st.current_time)

/-- `lunch_addition`. -/
def lunch_addition_at (st : SimState) : Nat :=
  if needs_lunch_at st then LUNCH_BREAK_DURATION else 0

/-- `finish_time = current_time + lunch_addition + time_at_place +
travel_after`. -/
def finish_time_at (st : SimState) (p : Stop) : Nat :=
  st.current_time + lunch_addition_at st + p.avg_time_minutes + p.travel_to_next_min

/-- The clock value stamped on a kept stop's arrival: the running clock,
plus the lunch duration first when a lunch break is pending. -/
def sim_arrival (st : SimState) : Nat :=
  if needs_lunch_at st then st.current_time + LUNCH_BREAK_DURATION
  else st.current_time

/-- The fields the simulation writes into a kept stop: the lunch flag,
arrival and departure stamps (numeric and formatted), and the
late-schedule warning for user-forced stops past the end time. -/
def sim_mark (st : SimState) (user_forced_ids : List String)
    (end_time_minutes : Nat) (place : Stop) : Stop :=
  { place with
    has_lunch_before := needs_lunch_at st,
    scheduled_min := sim_arrival st,
    scheduled_time := fmt_time (sim_arrival st),
    departure_min := sim_arrival st + place.avg_time_minutes,
    departure_time := fmt_time (sim_arrival st + place.avg_time_minutes),
    warning :=
      if decide (place.id ∈ user_forced_ids)
          && decide (end_time_minutes < finish_time_at st place) then
        some "late_schedule"
      else place.warning }

@[simp] theorem sim_mark_id (st : SimState) (f : List String) (e : Nat)
    (p : Stop) : (sim_mark st f e p).id = p.id := rfl

@[simp] theorem sim_mark_scheduled_min (st : SimState) (f : List String)
    (e : Nat) (p : Stop) : (sim_mark st f e p).scheduled_min = sim_arrival st := rfl

@[simp] theorem sim_mark_departure_min (st : SimState) (f : List String)
    (e : Nat) (p : Stop) :
    (sim_mark st f e p).departure_min = sim_arrival st + p.avg_time_minutes := rfl

@[simp] theorem sim_mark_has_lunch_before (st : SimState) (f : List String)
    (e : Nat) (p : Stop) :
    (sim_mark st f e p).has_lunch_before = needs_lunch_at st := rfl

@[simp] theorem sim_mark_warning (st : SimState) (f : List String) (e : Nat)
    (p : Stop) :
    (sim_mark st f e p).warning =
      if decide (p.id ∈ f) && decide (e < finish_time_at st p) then
        some "late_schedule"
      else p.warning := rfl

/-- The body of `for place in day['places']` in the time simulation: drop
the stop (overflow) when the finish time exceeds the target end and the
stop is not user-forced — leaving the clock and lunch flag untouched —
else insert lunch if pending, stamp arrival/departure, attach the
late-schedule warning to forced stops past the end time, and advance the
clock to `departure + travel_after`. -/
def sim_step (user_forced_ids : List String) (end_time_minutes : Nat)
    (st : SimState) (place : Stop) : SimState :=
  if decide (end_time_minutes < finish_time_at st place)
      && !decide (place.id ∈ user_forced_ids) then
    { st with overflow := st.overflow ++ [place] }
  else
    { current_time := sim_arrival st + place.avg_time_minutes
        + place.travel_to_next_min,
      lunch_inserted := if needs_lunch_at st then true else st.lunch_inserted,
      keep := st.keep ++ [sim_mark st user_forced_ids end_time_minutes place],
      overflow := st.overflow }

/-- The whole per-day simulation: fold `sim_step` over the day's stops from
the pace start time. -/
def simulate_day (user_forced_ids : List String) (end_time_minutes : Nat)
    (start_minutes : Nat) (stops : List Stop) : SimState :=
  stops.foldl (sim_step user_forced_ids end_time_minutes)
    ⟨start_minutes, false, [], []⟩

/-- **C10** (dropped stops do not consume the lunch break): when a stop is
dropped for exceeding the end time (its finish-time check *including* the
pending lunch addition, and it is not user-forced), the step only appends
it to the overflow list: clock, lunch flag and kept list are unchanged —
and therefore a later stop processed from this same state at which the
lunch condition holds is still kept with `has_lunch_before = true`,
setting the lunch flag. -/
theorem sim_step_drop_frame (user_forced_ids : List String)
    (end_time_minutes : Nat) (st : SimState) (p : Stop)
    (hnf : p.id ∉ user_forced_ids)
    (hexc : end_time_minutes < finish_time_at st p) :
    sim_step user_forced_ids end_time_minutes st p =
      { st with overflow := st.overflow ++ [p] }
    ∧ (sim_step user_forced_ids end_time_minutes st p).current_time =
        st.current_time
    ∧ (sim_step user_forced_ids end_time_minutes st p).lunch_inserted =
        st.lunch_inserted
    ∧ (sim_step user_forced_ids end_time_minutes st p).keep = st.keep
    ∧ (∀ q : Stop, needs_lunch_at st = true →
        (q.id ∈ user_forced_ids ∨ finish_time_at st q ≤ end_time_minutes) →
        (sim_step user_forced_ids end_time_minutes st q).lunch_inserted = true
        ∧ (sim_step user_forced_ids end_time_minutes st q).keep =
            st.keep ++ [sim_mark st user_forced_ids end_time_minutes q]
        ∧ (sim_mark st user_forced_ids end_time_minutes q).has_lunch_before
            = true) := by
  have hdrop : sim_step user_forced_ids end_time_minutes st p =
      { st with overflow := st.overflow ++ [p] } := by
    rw [sim_step]
    rw [if_pos (by simp [hnf, hexc])]
  refine ⟨hdrop, by rw [hdrop], by rw [hdrop], by rw [hdrop], ?_⟩
  intro q hlunch hkeep
  have hnodrop : ¬ ((decide (end_time_minutes < finish_time_at st q)
      && !decide (q.id ∈ user_forced_ids)) = true) := by
    rcases hkeep with h | h
    · simp [h]
    · simp [Nat.not_lt.mpr h]
  rw [sim_step, if_neg hnodrop]
  refine ⟨by simp [hlunch], rfl, by simp [hlunch]⟩

/-- A long stop arriving at 13:20 that cannot fit a 20:00 end time. -/
def lateStop : Stop :=
  { id := "x", name := "x", cluster := "Town Center",
    avg_time_minutes := 600, difficulty := "Easy", travel_to_next_min := 0 }

theorem sim_step_drop_frame_witness :
    ("x" ∉ ([] : List String))
    ∧ (1200 < finish_time_at ⟨800, false, [], []⟩ lateStop)
    ∧ sim_step [] 1200 ⟨800, false, [], []⟩ lateStop =
        { current_time := 800, lunch_inserted := false, keep := [],
          overflow := [] ++ [lateStop] } :=
  ⟨by simp, by decide,
    (sim_step_drop_frame [] 1200 ⟨800, false, [], []⟩ lateStop
      (by simp) (by decide)).1⟩

/-- Number of kept stops flagged `has_lunch_before`. -/
def lunch_count (l : List Stop) : Nat :=
  (l.filter (fun p => p.has_lunch_before)).length

/-- The C5 invariant of a simulation state: kept stops have
`scheduled ≤ departure`, consecutive kept stops have
`departure ≤ next scheduled`, the last departure is at most the running
clock, and at most one kept stop has the lunch flag (none while
`lunch_inserted` is still false). -/
structure SimInv (st : SimState) : Prop where
  sched_le : ∀ p ∈ st.keep, p.scheduled_min ≤ p.departure_min
  chain : st.keep.Chain' (fun a b => a.departure_min ≤ b.scheduled_min)
  last_le : ∀ p, st.keep.getLast? = some p → p.departure_min ≤ st.current_time
  lunch_le : lunch_count st.keep ≤ 1
  lunch_zero : st.lunch_inserted = false → lunch_count st.keep = 0

theorem lunch_count_append_one (l : List Stop) (x : Stop) :
    lunch_count (l ++ [x]) =
      lunch_count l + (if x.has_lunch_before then 1 else 0) := by
  rw [lunch_count, lunch_count, List.filter_append]
  by_cases h : x.has_lunch_before
  · simp [List.filter, h]
  · simp [List.filter, h]

theorem needs_lunch_not_inserted {st : SimState}
    (hl : needs_lunch_at st = true) : st.lunch_inserted = false := by
  rw [needs_lunch_at] at hl
  simp only [Bool.and_eq_true] at hl
  simpa using hl.1

theorem sim_step_inv (forced : List String) (endMin : Nat) (st : SimState)
    (p : Stop) (h : SimInv st) : SimInv (sim_step forced endMin st p) := by
  rw [sim_step]
  by_cases hdrop : (decide (endMin < finish_time_at st p)
      && !decide (p.id ∈ forced)) = true
  · rw [if_pos hdrop]
    exact ⟨h.sched_le, h.chain, h.last_le, h.lunch_le, h.lunch_zero⟩
  · rw [if_neg hdrop]
    have hcur : st.current_time ≤ sim_arrival st := by
      rw [sim_arrival]
      split <;> omega
    refine ⟨?_, ?_, ?_, ?_, ?_⟩
    · intro q hq
      rcases List.mem_append.mp hq with hq | hq
      · exact h.sched_le q hq
      · simp only [List.mem_singleton] at hq
        subst hq
        rw [sim_mark_scheduled_min, sim_mark_departure_min]
        omega
    · rw [List.chain'_append]
      refine ⟨h.chain, List.chain'_singleton _, ?_⟩
      intro x hx y hy
      rw [List.head?_cons, Option.mem_def] at hy
      obtain rfl := Option.some.inj hy
      have hx' := h.last_le x hx
      rw [sim_mark_scheduled_min]
      omega
    · intro q hq
      rw [List.getLast?_concat] at hq
      obtain rfl := Option.some.inj hq
      rw [sim_mark_departure_min]
      show sim_arrival st + p.avg_time_minutes ≤
        sim_arrival st + p.avg_time_minutes + p.travel_to_next_min
      omega
    · show lunch_count (st.keep ++ [sim_mark st forced endMin p]) ≤ 1
      rw [lunch_count_append_one, sim_mark_has_lunch_before]
      cases hl : needs_lunch_at st
      · have := h.lunch_le
        simp only [Bool.false_eq_true, if_false]
        omega
      · have h0 := h.lunch_zero (needs_lunch_not_inserted hl)
        simp only [if_true]
        omega
    · intro hfl
      show lunch_count (st.keep ++ [sim_mark st forced endMin p]) = 0
      have hfl' : (if needs_lunch_at st then true else st.lunch_inserted)
          = false := hfl
      cases hl : needs_lunch_at st
      · rw [hl] at hfl'
        simp only [Bool.false_eq_true, if_false] at hfl'
        rw [lunch_count_append_one, sim_mark_has_lunch_before, hl,
          h.lunch_zero hfl']
        simp
      · rw [hl] at hfl'
        simp at hfl'

theorem sim_fold_inv (forced : List String) (endMin : Nat) (stops : List Stop) :
    ∀ st : SimState, SimInv st →
    SimInv (stops.foldl (sim_step forced endMin) st) := by
  induction stops with
  | nil => intro st h; exact h
  | cons p rest ih =>
    intro st h
    exact ih _ (sim_step_inv forced endMin st p h)

theorem simulate_day_inv (forced : List String) (endMin startMin : Nat)
    (stops : List Stop) : SimInv (simulate_day forced endMin startMin stops) := by
  refine sim_fold_inv forced endMin stops _ ?_
  exact ⟨by simp, by simp, by simp, by simp [lunch_count],
    fun _ => by simp [lunch_count]⟩

theorem sim_step_overflow_not_forced (forced : List String) (endMin : Nat)
    (st : SimState) (p : Stop)
    (h : ∀ r ∈ st.overflow, r.id ∉ forced) :
    ∀ r ∈ (sim_step forced endMin st p).overflow, r.id ∉ forced := by
  rw [sim_step]
  by_cases hdrop : (decide (endMin < finish_time_at st p)
      && !decide (p.id ∈ forced)) = true
  · rw [if_pos hdrop]
    intro r hr
    rcases List.mem_append.mp hr with hr | hr
    · exact h r hr
    · simp only [List.mem_singleton] at hr
      subst hr
      simp only [Bool.and_eq_true] at hdrop
      simpa using hdrop.2
  · rw [if_neg hdrop]
    exact h

theorem sim_fold_overflow_not_forced (forced : List String) (endMin : Nat)
    (stops : List Stop) :
    ∀ st : SimState, (∀ r ∈ st.overflow, r.id ∉ forced) →
    ∀ r ∈ (stops.foldl (sim_step forced endMin) st).overflow, r.id ∉ forced := by
  induction stops with
  | nil => intro st h; exact h
  | cons p rest ih =>
    intro st h
    exact ih _ (sim_step_overflow_not_forced forced endMin st p h)

theorem sim_step_ids_perm (forced : List String) (endMin : Nat)
    (st : SimState) (p : Stop) :
    ((sim_step forced endMin st p).keep.map Stop.id
      ++ (sim_step forced endMin st p).overflow.map Stop.id).Perm
    ((st.keep.map Stop.id ++ st.overflow.map Stop.id) ++ [p.id]) := by
  rw [sim_step]
  by_cases hdrop : (decide (endMin < finish_time_at st p)
      && !decide (p.id ∈ forced)) = true
  · rw [if_pos hdrop]
    simp only [List.map_append, List.map_cons, List.map_nil]
    rw [List.append_assoc]
  · rw [if_neg hdrop]
    simp only [List.map_append, List.map_cons, List.map_nil, sim_mark_id]
    rw [List.append_assoc, List.append_assoc]
    exact List.Perm.append_left _ List.perm_append_comm

theorem sim_fold_ids_perm (forced : List String) (endMin : Nat)
    (stops : List Stop) :
    ∀ st : SimState,
    ((stops.foldl (sim_step forced endMin) st).keep.map Stop.id
      ++ (stops.foldl (sim_step forced endMin) st).overflow.map Stop.id).Perm
    ((st.keep.map Stop.id ++ st.overflow.map Stop.id) ++ stops.map Stop.id) := by
  induction stops with
  | nil => intro st; simp
  | cons p rest ih =>
    intro st
    refine (ih (sim_step forced endMin st p)).trans ?_
    refine ((sim_step_ids_perm forced endMin st p).append_right _).trans ?_
    simp [List.append_assoc]

theorem simulate_day_ids_perm (forced : List String) (endMin startMin : Nat)
    (stops : List Stop) :
    ((simulate_day forced endMin startMin stops).keep.map Stop.id
      ++ (simulate_day forced endMin startMin stops).overflow.map Stop.id).Perm
    (stops.map Stop.id) := by
  have := sim_fold_ids_perm forced endMin stops ⟨startMin, false, [], []⟩
  simpa [simulate_day] using this

/-- `pace.lower()`: `String.toLower` is `@[extern]`-backed and does not
reduce in the kernel, so the model lowers the character list directly. -/
def str_lower (s : String) : String := ⟨s.data.map Char.toLower⟩

/-- `PACE_START_TIMES.get(pace, 9)` (hours from midnight). -/
def PACE_START_TIMES (p : String) : Nat :=
  if p = "slow" then 11 else if p = "chill" then 11
  else if p = "medium" then 9 else if p = "balanced" then 9
  else if p = "fast" then 7 else if p = "packed" then 7 else 9

/-- `PACE_END_TIMES.get(pace, 18)` (hours from midnight). -/
def PACE_END_TIMES (p : String) : Nat :=
  if p = "slow" then 16 else if p = "chill" then 16
  else if p = "medium" then 18 else if p = "balanced" then 18
  else if p = "fast" then 20 else if p = "packed" then 20 else 18

/-- `user_config['hotel_location']`: coordinates are floats in the source
but only zero-tested and passed to the opaque travel-time parameter. -/
structure HotelLocation where
  lat : Int
  lng : Int
  name : Option String := none
  deriving Repr, DecidableEq

/-- The build request configuration.  `start_day_idx` models
`start_date` already parsed to the weekday index of day 1
(`int(datetime.fromisoformat(start_date).strftime('%w'))`, 0 = Sunday);
`none` covers both an absent `start_date` and a parse failure, which the
source's `try/except` turns into skipping the weekday alignment.  ISO-8601
parsing itself is not modelled. -/
structure UserConfig where
  num_days : Nat := 3
  pace : String := "medium"
  hotel_cluster : String := "Town Center"
  start_day_idx : Option Nat := none
  user_forced_ids : List String := []
  hotel_location : Option HotelLocation := none
  deriving Repr, DecidableEq

/-- One dropped place as reported in `removed_places`. -/
structure RemovedPlace where
  id : String
  name : String
  cluster : String
  reason : String
  reason_text : String
  avg_time_minutes : Nat
  deriving Repr, DecidableEq

/-- Whether a place counts as closed on a weekday in the aligner: it has
declared opening periods and none of them opens on that weekday
(`period.get('open', {}).get('day') == current_day_idx`). -/
def place_closed_on (p : Place) (day_idx : Nat) : Bool :=
  if p.opening_periods.isEmpty then false
  else !(p.opening_periods.any (fun od => od = some day_idx))

/-- Closed-place count of assigning the clusters of a permutation to
consecutive weekdays starting at `day_idx` (mod 7). -/
def count_closed_from (clusters : Clusters) : Nat → List String → Nat
  | _, [] => 0
  | day_idx, c :: rest =>
    ((dict_get clusters c).filter (fun p => place_closed_on p day_idx)).length
      + count_closed_from clusters ((day_idx + 1) % 7) rest

/-- Best cluster permutation under the weekday score: scan all
permutations, strict improvement wins, starting from the original order.
(The enumeration order of `List.permutations` differs from
`itertools.permutations`; only the tie-break among equally-scored
permutations can differ, which no claim depends on.) -/
def best_weekday_perm (clusters : Clusters) (start_day_idx : Nat) : List String :=
  let names := dict_keys clusters
  names.permutations.foldl
    (fun best perm =>
      if count_closed_from clusters start_day_idx perm <
          count_closed_from clusters start_day_idx best then perm else best)
    names

/-- The weekday-alignment step of `build_itinerary`: reorder the cluster
dict by the best permutation (`{name: clusters[name] for name in
best_perm}`); skipped when no start date is available. -/
def align_clusters (clusters : Clusters) (start_day_idx : Option Nat) : Clusters :=
  match start_day_idx with
  | none => clusters
  | some d =>
    (best_weekday_perm clusters d).map (fun name => (name, dict_get clusters name))

/-- Enrichment of a Forest Circuit route item
(`self.places_data.get(item['id'], {})`; display-only fields omitted). -/
def forest_enrich (places_data : List (String × Place)) (item : RouteItem) : Stop :=
  match places_data.lookup item.id with
  | some place =>
    { id := item.id, name := place.name, cluster := "Forest Circuit",
      avg_time_minutes := place.avg_time_spent_minutes.getD 60,
      difficulty := place.difficulty.getD "Easy",
      travel_to_next_min := item.travel_to_next_min,
      is_forest_circuit := true }
  | none =>
    { id := item.id, name := item.id, cluster := "Forest Circuit",
      avg_time_minutes := 60, difficulty := "Easy",
      travel_to_next_min := item.travel_to_next_min,
      is_forest_circuit := true }

/-- Enrichment of a non-circuit place appended after the circuit in a
merged Forest Circuit day (estimated 10 min travel). -/
def forest_other_enrich (cluster_name : String) (place : Place) : Stop :=
  { id := place.id, name := place.name,
    cluster := place.cluster_zone.getD cluster_name,
    avg_time_minutes := place.avg_time_spent_minutes.getD 60,
    difficulty := place.difficulty.getD "Easy",
    travel_to_next_min := 10,
    is_forest_circuit := false }

/-- Enrichment of a standard-cluster route stop. -/
def standard_enrich (places_data : List (String × Place)) (cluster_name : String)
    (item : RouteStop) : Stop :=
  { id := item.id, name := item.name, cluster := cluster_name,
    avg_time_minutes :=
      ((places_data.lookup item.id).bind Place.avg_time_spent_minutes).getD 60,
    difficulty := ((places_data.lookup item.id).bind Place.difficulty).getD "Easy",
    travel_to_next_min := item.travel_to_next_min,
    is_forest_circuit := false }

/-- The ordered, enriched stop list of one cluster's day: Forest Circuit
clusters route their circuit places through the cached circuit and append
the non-circuit places; standard clusters go through
`_optimize_cluster_route`. -/
def build_day_stops (s : Scheduler) (cluster_name : String)
    (places : List Place) (hotel_cluster : String) : List Stop :=
  if contains_sub "Forest Circuit" cluster_name then
    let forest_route_ids := s.forest_route.map RouteItem.id
    let forest_places := places.filter (fun p => p.id ∈ forest_route_ids)
    let other_places := places.filter (fun p => p.id ∉ forest_route_ids)
    let route := get_forest_route_for_selection s.forest_route
      (forest_places.map Place.id)
    route.map (forest_enrich s.places_data)
      ++ other_places.map (forest_other_enrich cluster_name)
  else
    (optimize_cluster_route s.gmaps places hotel_cluster).map
      (standard_enrich s.places_data cluster_name)

/-- The per-cluster day construction loop of `build_itinerary` (empty
clusters are skipped; `day_num` counts the emitted days). -/
def build_days (s : Scheduler) (clusters : Clusters)
    (hotel_cluster : String) : List Day :=
  (clusters.filter (fun e => !e.2.isEmpty)).enum.map (fun e =>
    let stops := build_day_stops s e.2.1 e.2.2 hotel_cluster
    { day := e.1 + 1, cluster := e.2.1, places := stops,
      total_drive_min := stops_travel_sum stops,
      place_count := stops.length })

/-- The `RemovedPlace` record built for one overflowed stop (reason is
always `exceeded_end_time`; the removal loop is the only producer of
removed places). -/
def removed_of (end_hour : Nat) (pace : String) (p : Stop) : RemovedPlace :=
  { id := p.id, name := p.name, cluster := p.cluster,
    reason := "exceeded_end_time",
    reason_text := s!"Could not fit within {end_hour}:00 end time (pace: {pace})",
    avg_time_minutes := p.avg_time_minutes }

/-- Apply the time-budget simulation to one day: replace its places with
the kept stops, stamp the day's clock fields, and report the overflow as
`RemovedPlace` records with reason `exceeded_end_time`. -/
def simulate_build_day (forced : List String)
    (end_time_minutes start_hour end_hour : Nat) (pace : String)
    (day : Day) : Day × List RemovedPlace :=
  let st := simulate_day forced end_time_minutes (start_hour * 60) day.places
  ({ day with
      places := st.keep,
      place_count := st.keep.length,
      total_drive_min := stops_travel_sum st.keep,
      end_time := fmt_time st.current_time,
      start_time := fmt_time (start_hour * 60),
      target_end_time := fmt_time (end_hour * 60) },
    st.overflow.map (removed_of end_hour pace))

/-- The hotel-transfer step for one day: travel times hotel→first and
last→hotel (default 15 when a place's coordinates are falsy), and the raw
implied hotel-departure minutes (`start_hour * 60 - hotel_to_first`, which
the source then formats; the formatted string is determined by this
value). -/
def add_hotel_times (s : Scheduler) (hl : HotelLocation) (start_hour : Nat)
    (day : Day) : Day :=
  match day.places with
  | [] => day
  | first :: rest =>
    let last := List.getLast (first :: rest) (by simp)
    let first_loc :=
      ((s.places_data.lookup first.id).map (fun p => (p.lat, p.lng))).getD (0, 0)
    let last_loc :=
      ((s.places_data.lookup last.id).map (fun p => (p.lat, p.lng))).getD (0, 0)
    let hotel_to_first :=
      if first_loc.1 ≠ 0 ∧ first_loc.2 ≠ 0 then
        s.travel_time (hl.lat, hl.lng) first_loc
      else 15
    let last_to_hotel :=
      if last_loc.1 ≠ 0 ∧ last_loc.2 ≠ 0 then
        s.travel_time last_loc (hl.lat, hl.lng)
      else 15
    { day with
      hotel_to_first_min := some hotel_to_first,
      last_to_hotel_min := some last_to_hotel,
      hotel_depart_min := some ((start_hour : Int) * 60 - hotel_to_first),
      hotel_name := some (hl.name.getD "Hotel") }

/-- The result of `build_itinerary`: either the explicit "no valid places"
error or `{days, start_hour, end_hour, removed_places}` (the advisory
`suggestions` list is not modelled: it is float-ranked display data that
never feeds back into scheduling and no claim reads it). -/
inductive BuildResult where
  | error (msg : String) : BuildResult
  | ok (days : List Day) (start_hour end_hour : Nat)
      (removed_places : List RemovedPlace) : BuildResult
  deriving Repr, DecidableEq

/-- Lines 569-579 of `build_itinerary`: look up the selected ids in the
place store, drop unknown ids, and keep only itinerary-eligible places
(`itinerary_include is not False`). -/
def selected_of (s : Scheduler) (ids : List String) : List Place :=
  (ids.filterMap (fun pid => s.places_data.lookup pid)).filter
    (fun p => p.itinerary_include ≠ some false)

/-- Lines 584-764 of `build_itinerary`: assign to clusters, merge when
more non-empty zones than days, weekday-align, build each cluster's day,
split when fewer days than requested. -/
def route_phase (s : Scheduler) (cfg : UserConfig)
    (selected_places : List Place) : List Day :=
  let clusters0 := assign_to_clusters selected_places
  let clusters1 :=
    if cfg.num_days < count_nonempty clusters0 then
      merge_clusters clusters0 cfg.num_days
    else clusters0
  let clusters2 := align_clusters clusters1 cfg.start_day_idx
  let days0 := build_days s clusters2 cfg.hotel_cluster
  if days0.length < cfg.num_days then
    split_days_if_needed days0 cfg.num_days cfg.pace
  else days0

/-- Lines 766-860 of `build_itinerary`: run the time-budget simulation on
every day. -/
def sim_phase (cfg : UserConfig) (days1 : List Day) :
    List (Day × List RemovedPlace) :=
  days1.map (simulate_build_day cfg.user_forced_ids
    (PACE_END_TIMES (str_lower cfg.pace) * 60)
    (PACE_START_TIMES (str_lower cfg.pace))
    (PACE_END_TIMES (str_lower cfg.pace)) cfg.pace)

/-- Lines 869-918 of `build_itinerary`: layer hotel transfer times on each
day when a hotel location with truthy coordinates is supplied. -/
def hotel_phase (s : Scheduler) (cfg : UserConfig) (days3 : List Day) :
    List Day :=
  match cfg.hotel_location with
  | some hl =>
    if hl.lat ≠ 0 ∧ hl.lng ≠ 0 then
      days3.map (add_hotel_times s hl (PACE_START_TIMES (str_lower cfg.pace)))
    else days3
  | none => days3

/-- `ItineraryScheduler.build_itinerary`: select and filter places, route
them into days, simulate each day's time budget (dropping overflow into
`removed_places`), remove empty days, renumber, and layer hotel
transfers. -/
def build_itinerary (s : Scheduler) (selected_place_ids : List String)
    (cfg : UserConfig) : BuildResult :=
  let selected_places := selected_of s selected_place_ids
  if selected_places.isEmpty then .error "No valid places selected"
  else
    let sim := sim_phase cfg (route_phase s cfg selected_places)
    .ok
      (hotel_phase s cfg (renumber
        ((sim.map Prod.fst).filter (fun d => !d.places.isEmpty))))
      (PACE_START_TIMES (str_lower cfg.pace))
      (PACE_END_TIMES (str_lower cfg.pace))
      ((sim.map Prod.snd).flatten)

/-- Days of a build result (empty on the error result). -/
def result_days : BuildResult → List Day
  | .error _ => []
  | .ok days _ _ _ => days

/-- Removed places of a build result (empty on the error result). -/
def result_removed : BuildResult → List RemovedPlace
  | .error _ => []
  | .ok _ _ _ removed => removed

theorem build_itinerary_of_not_empty (s : Scheduler) (ids : List String)
    (cfg : UserConfig) (h : ¬ (selected_of s ids).isEmpty = true) :
    build_itinerary s ids cfg =
      .ok
        (hotel_phase s cfg (renumber
          (((sim_phase cfg (route_phase s cfg (selected_of s ids))).map
            Prod.fst).filter (fun d => !d.places.isEmpty))))
        (PACE_START_TIMES (str_lower cfg.pace))
        (PACE_END_TIMES (str_lower cfg.pace))
        (((sim_phase cfg (route_phase s cfg (selected_of s ids))).map
          Prod.snd).flatten) := by
  rw [build_itinerary]
  rw [if_neg h]

/-- The single long place of the lunch-boundary example:
`avg_time_spent_minutes = 600` in a standard zone. -/
def soloPlace : Place :=
  { id := "solo-long-place", name := "Solo", cluster_zone := some "Town Center",
    avg_time_spent_minutes := some 600 }

/-- A scheduler whose store holds only the long place (no oracle, default
circuit cache irrelevant to this standard-zone build). -/
def soloSched : Scheduler :=
  { gmaps := none,
    forest_route := [⟨"green-valley-viewpoint-kodaikanal", 5⟩,
      ⟨"guna-cave-kodaikanal", 1⟩, ⟨"pillar-rocks-road-kodaikanal", 4⟩,
      ⟨"pine-forest-kodaikanal", 3⟩, ⟨"moir-point-kodaikanal", 0⟩],
    places_data := [("solo-long-place", soloPlace)],
    travel_time := fun _ _ => 5 }

/-- Pace "fast", one day. -/
def fastCfg : UserConfig := { num_days := 1, pace := "fast" }

set_option maxRecDepth 100000 in
/-- **C7 counterexample**: scheduling the 600-minute place alone at pace
"fast" (start 7:00) arrives at it at 7:00, *before* the lunch window
(13:00), so no lunch break is inserted and the day ends at
7:00 + 600 min = 17:00 — not 18:30 with a lunch as the claim states (the
lunch check happens at each stop's arrival, not during the visit). -/
theorem lunch_boundary_example_no_lunch :
    ((result_days (build_itinerary soloSched ["solo-long-place"] fastCfg)).map
        Day.end_time = ["17:00"])
    ∧ ((result_days (build_itinerary soloSched ["solo-long-place"] fastCfg)).map
        (fun d => d.places.map Stop.has_lunch_before) = [[false]])
    ∧ (["17:00"] : List String) ≠ ["18:30"] := by
  refine ⟨by decide, by decide, by decide⟩

set_option maxRecDepth 100000 in
/-- **C7 (amended)**: the single 600-minute place at pace "fast" is kept
(600 + 0 travel fits the 780-minute budget), *no* lunch break is inserted
(the lunch condition is checked at the stop's arrival, 7:00, which is
before the 13:00 window), and the day's end time is
7:00 + 600 min = 17:00. -/
theorem lunch_boundary_example_correct :
    ((result_days (build_itinerary soloSched ["solo-long-place"] fastCfg)).map
        (fun d => d.places.map Stop.id) = [["solo-long-place"]])
    ∧ (result_removed (build_itinerary soloSched ["solo-long-place"] fastCfg) = [])
    ∧ ((result_days (build_itinerary soloSched ["solo-long-place"] fastCfg)).map
        (fun d => d.places.map Stop.has_lunch_before) = [[false]])
    ∧ ((result_days (build_itinerary soloSched ["solo-long-place"] fastCfg)).map
        Day.end_time = [fmt_time (7 * 60 + 600)]) := by
  refine ⟨by decide, by decide, by decide, by decide⟩

theorem simulate_build_day_removed (forced : List String)
    (endMin sh eh : Nat) (pace : String) (day : Day) :
    ∀ r ∈ (simulate_build_day forced endMin sh eh pace day).2,
      r.reason = "exceeded_end_time" ∧ r.id ∉ forced := by
  intro r hr
  obtain ⟨p, hp, heq⟩ := List.mem_map.mp hr
  constructor
  · rw [← heq]
    rfl
  · have hid : r.id = p.id := by
      rw [← heq]
      rfl
    rw [hid]
    exact sim_fold_overflow_not_forced forced endMin day.places
      ⟨sh * 60, false, [], []⟩ (by simp) p hp

theorem sim_phase_removed (cfg : UserConfig) (days1 : List Day) :
    ∀ r ∈ ((sim_phase cfg days1).map Prod.snd).flatten,
      r.reason = "exceeded_end_time" ∧ r.id ∉ cfg.user_forced_ids := by
  intro r hr
  obtain ⟨l, hl, hrl⟩ := List.mem_flatten.mp hr
  obtain ⟨dr, hdr, hdl⟩ := List.mem_map.mp hl
  rw [sim_phase] at hdr
  obtain ⟨d1, hd1, hdd⟩ := List.mem_map.mp hdr
  rw [← hdl, ← hdd] at hrl
  exact simulate_build_day_removed _ _ _ _ _ d1 r hrl

/-- **C3** (forced-stop preservation): (1) every entry of the build's
`removed_places` has reason `exceeded_end_time` and an id *not* in
`user_forced_ids` — a user-forced place is never removed for exceeding the
end time; (2) at the simulation step, a user-forced stop whose finish time
would exceed the target end time is kept in the day (appended to the kept
list, overflow unchanged) and carries the non-fatal `late_schedule`
warning. -/
theorem forced_stop_preservation (s : Scheduler) (cfg : UserConfig)
    (ids : List String) :
    (∀ r ∈ result_removed (build_itinerary s ids cfg),
      r.reason = "exceeded_end_time" ∧ r.id ∉ cfg.user_forced_ids)
    ∧ (∀ (endMin : Nat) (st : SimState) (p : Stop),
        p.id ∈ cfg.user_forced_ids → endMin < finish_time_at st p →
        (sim_step cfg.user_forced_ids endMin st p).keep =
          st.keep ++ [sim_mark st cfg.user_forced_ids endMin p]
        ∧ (sim_step cfg.user_forced_ids endMin st p).overflow = st.overflow
        ∧ (sim_mark st cfg.user_forced_ids endMin p).warning =
            some "late_schedule") := by
  constructor
  · intro r hr
    by_cases hemp : (selected_of s ids).isEmpty = true
    · rw [build_itinerary, if_pos hemp] at hr
      exact absurd hr (by simp [result_removed])
    · rw [build_itinerary_of_not_empty s ids cfg hemp] at hr
      exact sim_phase_removed cfg _ r hr
  · intro endMin st p hforce hexc
    have hnodrop : ¬ ((decide (endMin < finish_time_at st p)
        && !decide (p.id ∈ cfg.user_forced_ids)) = true) := by
      simp [hforce]
    rw [sim_step, if_neg hnodrop]
    refine ⟨rfl, rfl, ?_⟩
    rw [sim_mark_warning]
    simp [hforce, hexc]

/-- Configuration forcing the long stop, for the C3 witness. -/
def forcedCfg : UserConfig :=
  { num_days := 1, pace := "fast", user_forced_ids := ["x"] }

theorem forced_stop_preservation_witness :
    ("x" ∈ forcedCfg.user_forced_ids)
    ∧ (1200 < finish_time_at ⟨800, false, [], []⟩ lateStop)
    ∧ ((sim_step forcedCfg.user_forced_ids 1200 ⟨800, false, [], []⟩
          lateStop).keep =
        ([] : List Stop) ++ [sim_mark ⟨800, false, [], []⟩
          forcedCfg.user_forced_ids 1200 lateStop]
      ∧ (sim_step forcedCfg.user_forced_ids 1200 ⟨800, false, [], []⟩
          lateStop).overflow = ([] : List Stop)
      ∧ (sim_mark ⟨800, false, [], []⟩ forcedCfg.user_forced_ids 1200
          lateStop).warning = some "late_schedule") :=
  ⟨by decide, by decide,
    (forced_stop_preservation soloSched forcedCfg ["x"]).2 1200
      ⟨800, false, [], []⟩ lateStop (by decide) (by decide)⟩

theorem add_hotel_times_places (s : Scheduler) (hl : HotelLocation)
    (sh : Nat) (d : Day) : (add_hotel_times s hl sh d).places = d.places := by
  rw [add_hotel_times]
  split
  · rfl
  · rfl

theorem renumber_places {days : List Day} :
    ∀ d ∈ renumber days, ∃ d0 ∈ days, d.places = d0.places := by
  intro d hd
  rw [renumber] at hd
  obtain ⟨e, he, hmap⟩ := List.mem_map.mp hd
  obtain ⟨i, x⟩ := e
  refine ⟨x, ?_, by rw [← hmap]⟩
  exact List.mem_iff_getElem?.mpr ⟨i, List.mk_mem_enum_iff_getElem?.mp he⟩

theorem sim_phase_fst_places (cfg : UserConfig) (days1 : List Day) :
    ∀ d ∈ (sim_phase cfg days1).map Prod.fst,
    ∃ st : SimState, SimInv st ∧ d.places = st.keep := by
  intro d hd
  obtain ⟨dr, hdr, hdd⟩ := List.mem_map.mp hd
  rw [sim_phase] at hdr
  obtain ⟨d1, hd1, hsim⟩ := List.mem_map.mp hdr
  refine ⟨simulate_day cfg.user_forced_ids
    (PACE_END_TIMES (str_lower cfg.pace) * 60)
    (PACE_START_TIMES (str_lower cfg.pace) * 60) d1.places,
    simulate_day_inv _ _ _ _, ?_⟩
  rw [← hdd, ← hsim]
  rfl

theorem hotel_phase_places (s : Scheduler) (cfg : UserConfig)
    (days3 : List Day) :
    ∀ d ∈ hotel_phase s cfg days3, ∃ d0 ∈ days3, d.places = d0.places := by
  intro d hd
  rw [hotel_phase] at hd
  revert hd
  split
  · split
    · intro hd
      obtain ⟨d0, hd0, hmap⟩ := List.mem_map.mp hd
      exact ⟨d0, hd0, by rw [← hmap, add_hotel_times_places]⟩
    · intro hd
      exact ⟨d, hd, rfl⟩
  · intro hd
    exact ⟨d, hd, rfl⟩

theorem build_day_places_from_sim (s : Scheduler) (cfg : UserConfig)
    (ids : List String) :
    ∀ day ∈ result_days (build_itinerary s ids cfg),
    ∃ st : SimState, SimInv st ∧ day.places = st.keep := by
  intro day hday
  by_cases hemp : (selected_of s ids).isEmpty = true
  · rw [build_itinerary, if_pos hemp] at hday
    exact absurd hday (by simp [result_days])
  · rw [build_itinerary_of_not_empty s ids cfg hemp] at hday
    obtain ⟨d3, hd3, hp3⟩ := hotel_phase_places s cfg _ day hday
    obtain ⟨d2, hd2, hp2⟩ := renumber_places d3 hd3
    obtain ⟨st, hinv, hpk⟩ := sim_phase_fst_places cfg _ d2
      (List.mem_filter.mp hd2).1
    exact ⟨st, hinv, by rw [hp3, hp2, hpk]⟩

/-- **C5** (time monotonicity): in every day of a build result, each kept
stop's scheduled minute is at most its departure minute, each departure is
at most the next kept stop's scheduled minute, and at most one kept stop
per day carries `has_lunch_before` (the `*_time` strings are the
zero-padded rendering of these `*_min` values).  With `Nat` minutes the
claim's non-negativity assumption is built in. -/
theorem time_monotonicity (s : Scheduler) (cfg : UserConfig)
    (ids : List String) :
    ∀ day ∈ result_days (build_itinerary s ids cfg),
      (∀ p ∈ day.places, p.scheduled_min ≤ p.departure_min)
      ∧ day.places.Chain' (fun a b => a.departure_min ≤ b.scheduled_min)
      ∧ lunch_count day.places ≤ 1 := by
  intro day hday
  obtain ⟨st, hinv, hpl⟩ := build_day_places_from_sim s cfg ids day hday
  rw [hpl]
  exact ⟨hinv.sched_le, hinv.chain, hinv.lunch_le⟩

set_option maxRecDepth 100000 in
theorem time_monotonicity_witness :
    ∃ day ∈ result_days (build_itinerary soloSched ["solo-long-place"] fastCfg),
      (∀ p ∈ day.places, p.scheduled_min ≤ p.departure_min)
      ∧ day.places.Chain' (fun a b => a.departure_min ≤ b.scheduled_min)
      ∧ lunch_count day.places ≤ 1 := by
  obtain ⟨d, l, hd⟩ : ∃ d l, result_days (build_itinerary soloSched
      ["solo-long-place"] fastCfg) = d :: l := ⟨_, _, rfl⟩
  exact ⟨d, by rw [hd]; exact List.mem_cons_self _ _,
    time_monotonicity soloSched fastCfg ["solo-long-place"] d
      (by rw [hd]; exact List.mem_cons_self _ _)⟩

/-- The character sequence of the merge separator `" + "`. -/
def sepChars : List Char := [' ', '+', ' ']

/-- Join component character lists with the merge separator. -/
def joinSep : List (List Char) → List Char
  | [] => []
  | [a] => a
  | a :: rest => a ++ sepChars ++ joinSep rest

/-- A component contains no `'+'` (true of every base zone name). -/
def PlusFree (a : List Char) : Prop := '+' ∉ a

theorem joinSep_cons_cons (a b : List Char) (t : List (List Char)) :
    joinSep (a :: b :: t) = a ++ sepChars ++ joinSep (b :: t) := rfl

theorem joinSep_append (P Q : List (List Char)) (hP : P ≠ []) (hQ : Q ≠ []) :
    joinSep (P ++ Q) = joinSep P ++ sepChars ++ joinSep Q := by
  induction P with
  | nil => exact absurd rfl hP
  | cons a P' ih =>
    cases P' with
    | nil =>
      cases Q with
      | nil => exact absurd rfl hQ
      | cons b Q' => rfl
    | cons a2 P'' =>
      rw [List.cons_append, List.cons_append, joinSep_cons_cons,
        ← List.cons_append, ih (by simp), joinSep_cons_cons]
      simp [List.append_assoc]

theorem plus_mem_joinSep_cons_cons (a b : List Char) (t : List (List Char)) :
    '+' ∈ joinSep (a :: b :: t) := by
  rw [joinSep_cons_cons]
  refine List.mem_append_left _ (List.mem_append_right _ ?_)
  simp [sepChars]

theorem takeWhile_ne_plus (a r : List Char) (ha : '+' ∉ a) :
    (a ++ ' ' :: '+' :: r).takeWhile (fun c => c ≠ '+') = a ++ [' '] := by
  induction a with
  | nil => rfl
  | cons c t ih =>
    have hc : (c = '+') = False := by
      simp only [eq_iff_iff, iff_false]
      intro h
      exact ha (by simp [h])
    have ht : '+' ∉ t := fun h => ha (by simp [h])
    have ih' := ih ht
    simp only [decide_not] at ih'
    simp only [List.cons_append, List.takeWhile_cons, decide_not, hc]
    simp [ih']

theorem joinSep_inj : ∀ (P Q : List (List Char)), P ≠ [] → Q ≠ [] →
    (∀ a ∈ P, PlusFree a) → (∀ a ∈ Q, PlusFree a) →
    joinSep P = joinSep Q → P = Q := by
  intro P
  induction P with
  | nil => intro Q h; exact absurd rfl h
  | cons a P' ihP =>
    intro Q _ hQne hPfree hQfree heq
    cases Q with
    | nil => exact absurd rfl hQne
    | cons b Q' =>
      cases P' with
      | nil =>
        cases Q' with
        | nil =>
          rw [show joinSep [a] = a from rfl, show joinSep [b] = b from rfl] at heq
          rw [heq]
        | cons c Q'' =>
          exfalso
          have ha := hPfree a (by simp)
          rw [show joinSep [a] = a from rfl] at heq
          exact ha (heq ▸ plus_mem_joinSep_cons_cons b c Q'')
      | cons a2 P'' =>
        cases Q' with
        | nil =>
          exfalso
          have hb := hQfree b (by simp)
          rw [show joinSep [b] = b from rfl] at heq
          exact hb (heq ▸ plus_mem_joinSep_cons_cons a a2 P'')
        | cons b2 Q'' =>
          rw [joinSep_cons_cons, joinSep_cons_cons] at heq
          have ha := hPfree a (by simp)
          have hb := hQfree b (by simp)
          have heq' : a ++ ' ' :: '+' :: (' ' :: joinSep (a2 :: P'')) =
              b ++ ' ' :: '+' :: (' ' :: joinSep (b2 :: Q'')) := by
            rw [show (' ' :: '+' :: (' ' :: joinSep (a2 :: P'')) : List Char) =
                sepChars ++ joinSep (a2 :: P'') from rfl,
              show (' ' :: '+' :: (' ' :: joinSep (b2 :: Q'')) : List Char) =
                sepChars ++ joinSep (b2 :: Q'') from rfl,
              ← List.append_assoc, ← List.append_assoc]
            exact heq
          have htw := congrArg (List.takeWhile (fun c => c ≠ '+')) heq'
          rw [takeWhile_ne_plus a _ ha, takeWhile_ne_plus b _ hb] at htw
          have hab : a = b :=
            (List.append_inj' htw rfl).1
          subst hab
          have htail : joinSep (a2 :: P'') = joinSep (b2 :: Q'') := by
            have := List.append_cancel_left heq'
            simpa using this
          have := ihP (b2 :: Q'') (by simp) (by simp)
            (fun x hx => hPfree x (by simp [hx]))
            (fun x hx => hQfree x (by simp [hx])) htail
          rw [this]

/-- All places of a cluster dict, in dict order. -/
def flatten_vals (l : Clusters) : List Place := (l.map Prod.snd).flatten

/-- The ghost invariant carried through `_merge_clusters`: every live key
is the `" + "`-join of a non-empty list of `'+'`-free components, and the
components of distinct live keys are disjoint (their concatenation is
duplicate-free).  It holds of the initial CLUSTER_ORDER keys (singleton
components) and makes every freshly merged key distinct from the live
ones, so dict assignment never overwrites an existing entry. -/
def MergeInv (l : Clusters) : Prop :=
  ∃ ps : List (List (List Char)),
    List.Forall₂ (fun (e : String × List Place) P =>
      e.1.data = joinSep P ∧ P ≠ [] ∧ ∀ a ∈ P, PlusFree a) l ps
    ∧ ps.flatten.Nodup

theorem forall₂_append_inv_left {α β : Type} {R : α → β → Prop} :
    ∀ {A rest : List α} {ps : List β}, List.Forall₂ R (A ++ rest) ps →
    ∃ psA psR, ps = psA ++ psR ∧ List.Forall₂ R A psA ∧ List.Forall₂ R rest psR := by
  intro A
  induction A with
  | nil =>
    intro rest ps h
    exact ⟨[], ps, rfl, List.Forall₂.nil, h⟩
  | cons a A' ih =>
    intro rest ps h
    rw [List.cons_append] at h
    obtain ⟨b, ps', hr, h', hps⟩ := List.forall₂_cons_left_iff.mp h
    obtain ⟨psA, psR, hsplit, hA, hR⟩ := ih h'
    exact ⟨b :: psA, psR, by rw [hps, hsplit]; rfl,
      List.Forall₂.cons hr hA, hR⟩

theorem forall₂_parts_mem {l : Clusters} {ps : List (List (List Char))}
    (h : List.Forall₂ (fun (e : String × List Place) P =>
      e.1.data = joinSep P ∧ P ≠ [] ∧ ∀ a ∈ P, PlusFree a) l ps) :
    ∀ P ∈ ps, P ≠ [] ∧ ∀ a ∈ P, PlusFree a := by
  induction h with
  | nil => intro P hP; cases hP
  | cons hr _ ih =>
    intro P hP
    rcases List.mem_cons.mp hP with hP | hP
    · subst hP
      exact ⟨hr.2.1, hr.2.2⟩
    · exact ih P hP

theorem forall₂_keys_data {l : Clusters} {ps : List (List (List Char))}
    (h : List.Forall₂ (fun (e : String × List Place) P =>
      e.1.data = joinSep P ∧ P ≠ [] ∧ ∀ a ∈ P, PlusFree a) l ps) :
    (dict_keys l).map String.data = ps.map joinSep := by
  induction h with
  | nil => rfl
  | cons hr _ ih =>
    simp only [dict_keys, List.map_cons] at ih ⊢
    rw [hr.1, ih]

theorem ps_nodup_of_flatten {ps : List (List (List Char))}
    (hflat : ps.flatten.Nodup) (hne : ∀ P ∈ ps, P ≠ []) : ps.Nodup := by
  obtain ⟨-, hpw⟩ := List.nodup_flatten.mp hflat
  refine List.Pairwise.imp_of_mem ?_ hpw
  intro P Q hP _ hdisj hPQ
  subst hPQ
  obtain ⟨x, hx⟩ := List.exists_mem_of_ne_nil P (hne P hP)
  exact hdisj hx hx

theorem mergeinv_keys_nodup {l : Clusters} (h : MergeInv l) :
    (dict_keys l).Nodup := by
  obtain ⟨ps, hF, hflat⟩ := h
  have hcond := forall₂_parts_mem hF
  have hdata := forall₂_keys_data hF
  have hpsnd : ps.Nodup := ps_nodup_of_flatten hflat (fun P hP => (hcond P hP).1)
  have hmapnd : (ps.map joinSep).Nodup := by
    refine hpsnd.map_on ?_
    intro P hP Q hQ heq
    exact joinSep_inj P Q (hcond P hP).1 (hcond Q hQ).1
      (hcond P hP).2 (hcond Q hQ).2 heq
  have : ((dict_keys l).map String.data).Nodup := hdata ▸ hmapnd
  refine List.Nodup.of_map String.data this

theorem string_data_nodup {ks : List String} (h : ks.Nodup) :
    (ks.map String.data).Nodup := by
  refine h.map_on ?_
  intro a _ b _ heq
  cases a
  cases b
  exact congrArg String.mk (by simpa using heq)

theorem flatten_singleton_parts (l : Clusters) :
    (l.map (fun e => [e.1.data])).flatten = (dict_keys l).map String.data := by
  induction l with
  | nil => rfl
  | cons e rest ih =>
    simp [dict_keys] at ih ⊢
    exact ih

theorem mergeinv_of_singletons (l : Clusters)
    (hnd : (dict_keys l).Nodup)
    (hfree : ∀ k ∈ dict_keys l, '+' ∉ k.data) : MergeInv l := by
  refine ⟨l.map (fun e => [e.1.data]), ?_, ?_⟩
  · induction l with
    | nil => exact List.Forall₂.nil
    | cons e rest ih =>
      refine List.Forall₂.cons ⟨rfl, by simp, ?_⟩ ?_
      · intro a ha
        simp only [List.mem_singleton] at ha
        subst ha
        exact hfree e.1 (by simp [dict_keys])
      · refine ih ?_ ?_
        · exact (List.nodup_cons.mp hnd).2
        · intro k hk
          exact hfree k (by simp [dict_keys] at hk ⊢; exact Or.inr hk)
  · rw [flatten_singleton_parts]
    exact string_data_nodup hnd

theorem lookup_append_of_not_mem (A rest : Clusters) (k : String)
    (h : k ∉ dict_keys A) : (A ++ rest).lookup k = rest.lookup k := by
  induction A with
  | nil => rfl
  | cons e A' ih =>
    obtain ⟨k', v'⟩ := e
    have hbe : (k == k') = false := by
      refine beq_eq_false_iff_ne.mpr ?_
      intro he
      exact h (by simp [dict_keys, he])
    rw [List.cons_append,
      show List.lookup k ((k', v') :: (A' ++ rest)) =
        match k == k' with
        | true => some v'
        | false => List.lookup k (A' ++ rest) from rfl,
      hbe]
    exact ih (fun hk => h (by simp [dict_keys] at hk ⊢; exact Or.inr hk))

theorem dict_del_append_of_not_mem (A rest : Clusters) (k : String)
    (h : k ∉ dict_keys A) : dict_del (A ++ rest) k = A ++ dict_del rest k := by
  induction A with
  | nil => rfl
  | cons e A' ih =>
    obtain ⟨k', v'⟩ := e
    have hne : k' ≠ k := by
      intro he
      exact h (by simp [dict_keys, he])
    rw [List.cons_append, dict_del, if_neg hne,
      ih (fun hk => h (by simp [dict_keys] at hk ⊢; exact Or.inr hk))]
    rfl

theorem dict_del_cons_self (e : String × List Place) (rest : Clusters) :
    dict_del (e :: rest) e.1 = rest := by
  obtain ⟨k, v⟩ := e
  rw [dict_del, if_pos rfl]

theorem dict_set_fresh (l : Clusters) (k : String) (v : List Place)
    (h : k ∉ dict_keys l) : dict_set l k v = l ++ [(k, v)] := by
  induction l with
  | nil => rfl
  | cons e rest ih =>
    obtain ⟨k', v'⟩ := e
    have hne : k' ≠ k := by
      intro he
      exact h (by simp [dict_keys, he])
    rw [dict_set, if_neg hne,
      ih (fun hk => h (by simp [dict_keys] at hk ⊢; exact Or.inr hk))]
    rfl

theorem forall₂_append_both {α β : Type} {R : α → β → Prop}
    {l1 l3 : List α} {l2 l4 : List β} (h1 : List.Forall₂ R l1 l2)
    (h2 : List.Forall₂ R l3 l4) : List.Forall₂ R (l1 ++ l3) (l2 ++ l4) := by
  induction h1 with
  | nil => exact h2
  | cons hr _ ih => exact List.Forall₂.cons hr ih

theorem nodup_flatten_distinct {α : Type} {ps : List (List α)}
    (h : ps.flatten.Nodup) {P Q : List α} (hP : P ∈ ps) (hQ : Q ∈ ps)
    (hne : P ≠ Q) {x : α} (hxP : x ∈ P) (hxQ : x ∈ Q) : False := by
  obtain ⟨-, hpw⟩ := List.nodup_flatten.mp h
  obtain ⟨i, hi, hPi⟩ := List.mem_iff_getElem.mp hP
  obtain ⟨j, hj, hQj⟩ := List.mem_iff_getElem.mp hQ
  have hij : i ≠ j := by
    intro he
    subst he
    rw [hPi] at hQj
    exact hne hQj
  rcases Nat.lt_or_ge i j with hlt | hge
  · exact List.pairwise_iff_getElem.mp hpw i j hi hj hlt
      (by rw [hPi]; exact hxP) (by rw [hQj]; exact hxQ)
  · have hlt : j < i := Nat.lt_of_le_of_ne hge (Ne.symm hij)
    exact List.pairwise_iff_getElem.mp hpw j i hj hi hlt
      (by rw [hQj]; exact hxQ) (by rw [hPi]; exact hxP)

theorem entries_split_of_keys_split {l : Clusters} {c1 c2 : String}
    {K1 K2 K3 : List String}
    (h : dict_keys l = K1 ++ c1 :: K2 ++ c2 :: K3) :
    ∃ (A : Clusters) (v1 : List Place) (B : Clusters) (v2 : List Place)
      (C : Clusters), l = A ++ (c1, v1) :: (B ++ (c2, v2) :: C) := by
  rw [dict_keys, List.append_assoc, List.cons_append] at h
  obtain ⟨A, rest1, hl1, -, hrest1⟩ := List.map_eq_append_iff.mp h
  obtain ⟨e1, rest2, hr1, he1, hrest2⟩ := List.map_eq_cons_iff.mp hrest1
  obtain ⟨B, rest3, hl3, -, hrest3⟩ := List.map_eq_append_iff.mp hrest2
  obtain ⟨e2, C, hr2, he2, -⟩ := List.map_eq_cons_iff.mp hrest3
  obtain ⟨k1, v1⟩ := e1
  obtain ⟨k2, v2⟩ := e2
  simp only at he1 he2
  subst he1
  subst he2
  exact ⟨A, v1, B, v2, C, by rw [hl1, hr1, hl3, hr2]⟩

theorem merge_fresh {l : Clusters} {c1 c2 : String}
    {A B C : Clusters} {v1 v2 : List Place}
    (hinv : MergeInv l)
    (hl : l = A ++ (c1, v1) :: (B ++ (c2, v2) :: C)) :
    (c1 ++ " + " ++ c2) ∉ dict_keys l := by
  obtain ⟨ps, hF, hflat⟩ := hinv
  have hcond := forall₂_parts_mem hF
  have hdata := forall₂_keys_data hF
  subst hl
  obtain ⟨psA, psR1, hps1, hFA, hFR1⟩ := forall₂_append_inv_left hF
  obtain ⟨P1, psR2, hrel1, hFR2, hps2⟩ := List.forall₂_cons_left_iff.mp hFR1
  obtain ⟨psB, psR3, hps3, hFB, hFR3⟩ := forall₂_append_inv_left hFR2
  obtain ⟨P2, psC, hrel2, hFC, hps4⟩ := List.forall₂_cons_left_iff.mp hFR3
  intro hmem
  have hmemdata : (c1 ++ " + " ++ c2).data ∈
      (dict_keys (A ++ (c1, v1) :: (B ++ (c2, v2) :: C))).map String.data :=
    List.mem_map_of_mem _ hmem
  rw [hdata] at hmemdata
  obtain ⟨P, hPmem, hPjoin⟩ := List.mem_map.mp hmemdata
  have hP1mem : P1 ∈ ps := by
    rw [hps1, hps2]
    exact List.mem_append_right _ (List.mem_cons_self _ _)
  have hP2mem : P2 ∈ ps := by
    rw [hps1, hps2, hps3, hps4]
    refine List.mem_append_right _ (List.mem_cons_of_mem _ ?_)
    exact List.mem_append_right _ (List.mem_cons_self _ _)
  have hP1ne : P1 ≠ [] := hrel1.2.1
  have hP2ne : P2 ≠ [] := hrel2.2.1
  have hjoin12 : (c1 ++ " + " ++ c2).data = joinSep (P1 ++ P2) := by
    rw [String.data_append, String.data_append,
      show (" + " : String).data = sepChars from rfl,
      hrel1.1, hrel2.1, joinSep_append P1 P2 hP1ne hP2ne]
  have hPfree := (hcond P hPmem).2
  have hP12free : ∀ a ∈ P1 ++ P2, PlusFree a := by
    intro a ha
    rcases List.mem_append.mp ha with ha | ha
    · exact hrel1.2.2 a ha
    · exact hrel2.2.2 a ha
  have hPeq : P = P1 ++ P2 := by
    refine joinSep_inj P (P1 ++ P2) (hcond P hPmem).1 (by simp [hP1ne]) hPfree
      hP12free ?_
    rw [hPjoin, hjoin12]
  obtain ⟨x, hx⟩ := List.exists_mem_of_ne_nil P1 hP1ne
  have hxP : x ∈ P := by
    rw [hPeq]
    exact List.mem_append_left _ hx
  have hPneP1 : P ≠ P1 := by
    intro he
    have : P1.length = P1.length + P2.length := by
      conv_lhs => rw [← he, hPeq]
      rw [List.length_append]
    have : P2.length = 0 := by omega
    exact hP2ne (List.eq_nil_of_length_eq_zero this)
  exact nodup_flatten_distinct hflat hPmem hP1mem hPneP1 hxP hx

theorem lookup_cons_self (k : String) (v : List Place) (rest : Clusters) :
    List.lookup k ((k, v) :: rest) = some v := by
  rw [show List.lookup k ((k, v) :: rest) =
      match k == k with
      | true => some v
      | false => List.lookup k rest from rfl]
  rw [beq_self_eq_true]

theorem merge_step_eq {l : Clusters} {c1 c2 : String}
    {A B C : Clusters} {v1 v2 : List Place}
    (hl : l = A ++ (c1, v1) :: (B ++ (c2, v2) :: C))
    (hnd : (dict_keys l).Nodup)
    (hfresh : (c1 ++ " + " ++ c2) ∉ dict_keys l) :
    merge_step l c1 c2 =
      A ++ (B ++ (C ++ [(c1 ++ " + " ++ c2, v1 ++ v2)])) := by
  have hkeys : dict_keys l =
      A.map Prod.fst ++ c1 :: (B.map Prod.fst ++ c2 :: C.map Prod.fst) := by
    rw [hl, dict_keys]
    simp
  rw [hkeys] at hnd
  have hndA := List.nodup_append.mp hnd
  have hc1A : c1 ∉ A.map Prod.fst := by
    intro hmem
    exact hndA.2.2 hmem (List.mem_cons_self _ _)
  have hndrest := List.nodup_cons.mp hndA.2.1
  have hc1B : c1 ∉ B.map Prod.fst := fun hm =>
    hndrest.1 (List.mem_append_left _ hm)
  have hc1c2 : c1 ≠ c2 :=
    fun he => hndrest.1 (List.mem_append_right _ (he ▸ List.mem_cons_self _ _))
  have hc2A : c2 ∉ A.map Prod.fst := by
    intro hmem
    exact hndA.2.2 hmem
      (List.mem_cons_of_mem _ (List.mem_append_right _ (List.mem_cons_self _ _)))
  have hndB := List.nodup_append.mp hndrest.2
  have hc2B : c2 ∉ B.map Prod.fst := by
    intro hmem
    exact hndB.2.2 hmem (List.mem_cons_self _ _)
  have hget1 : dict_get l c1 = v1 := by
    rw [dict_get, hl, lookup_append_of_not_mem A _ c1 (by rwa [dict_keys]),
      lookup_cons_self]
    rfl
  have hget2 : dict_get l c2 = v2 := by
    rw [dict_get, hl, lookup_append_of_not_mem A _ c2 (by rwa [dict_keys]),
      show List.lookup c2 ((c1, v1) :: (B ++ (c2, v2) :: C)) =
        match c2 == c1 with
        | true => some v1
        | false => List.lookup c2 (B ++ (c2, v2) :: C) from rfl,
      beq_eq_false_iff_ne.mpr (Ne.symm hc1c2),
      lookup_append_of_not_mem B _ c2 (by rwa [dict_keys]),
      lookup_cons_self]
    rfl
  rw [merge_step, hget1, hget2, dict_set_fresh l _ _ hfresh, hl]
  rw [show (A ++ (c1, v1) :: (B ++ (c2, v2) :: C))
        ++ [(c1 ++ " + " ++ c2, v1 ++ v2)] =
      A ++ (c1, v1) :: (B ++ (c2, v2) ::
        (C ++ [(c1 ++ " + " ++ c2, v1 ++ v2)])) by simp]
  rw [dict_del_append_of_not_mem A _ c1 (by rwa [dict_keys]),
    dict_del_cons_self (c1, v1)]
  rw [dict_del_append_of_not_mem A _ c2 (by rwa [dict_keys]),
    dict_del_append_of_not_mem B _ c2 (by rwa [dict_keys]),
    dict_del_cons_self (c2, v2)]

theorem flatten_vals_append (x y : Clusters) :
    flatten_vals (x ++ y) = flatten_vals x ++ flatten_vals y := by
  rw [flatten_vals, flatten_vals, flatten_vals, List.map_append,
    List.flatten_append]

theorem flatten_vals_cons (e : String × List Place) (rest : Clusters) :
    flatten_vals (e :: rest) = e.2 ++ flatten_vals rest := rfl

theorem merge_step_flatten_perm_inv {l : Clusters} {c1 c2 : String}
    (hinv : MergeInv l)
    (hkp : (c1, c2) ∈ key_pairs (dict_keys l)) :
    (flatten_vals (merge_step l c1 c2)).Perm (flatten_vals l)
    ∧ MergeInv (merge_step l c1 c2) := by
  obtain ⟨K1, K2, K3, hks⟩ := key_pairs_mem_split hkp
  obtain ⟨A, v1, B, v2, C, hl⟩ := entries_split_of_keys_split hks
  have hnd := mergeinv_keys_nodup hinv
  have hfresh := merge_fresh hinv hl
  have hms := merge_step_eq hl hnd hfresh
  constructor
  · rw [hms, hl]
    rw [← Multiset.coe_eq_coe]
    simp only [flatten_vals_append, flatten_vals_cons,
      show flatten_vals [] = [] from rfl, List.append_nil,
      ← Multiset.coe_add]
    abel
  · obtain ⟨ps, hF, hflat⟩ := hinv
    rw [hl] at hF
    obtain ⟨psA, psR1, hps1, hFA, hFR1⟩ := forall₂_append_inv_left hF
    obtain ⟨P1, psR2, hrel1, hFR2, hps2⟩ := List.forall₂_cons_left_iff.mp hFR1
    obtain ⟨psB, psR3, hps3, hFB, hFR3⟩ := forall₂_append_inv_left hFR2
    obtain ⟨P2, psC, hrel2, hFC, hps4⟩ := List.forall₂_cons_left_iff.mp hFR3
    refine ⟨psA ++ (psB ++ (psC ++ [P1 ++ P2])), ?_, ?_⟩
    · rw [hms]
      refine forall₂_append_both hFA (forall₂_append_both hFB
        (forall₂_append_both hFC (List.Forall₂.cons ?_ List.Forall₂.nil)))
      refine ⟨?_, by simp [hrel1.2.1], ?_⟩
      · rw [String.data_append, String.data_append,
          show (" + " : String).data = sepChars from rfl,
          hrel1.1, hrel2.1, joinSep_append P1 P2 hrel1.2.1 hrel2.2.1]
      · intro a ha
        rcases List.mem_append.mp ha with ha | ha
        · exact hrel1.2.2 a ha
        · exact hrel2.2.2 a ha
    · have hperm : (psA ++ (psB ++ (psC ++ [P1 ++ P2]))).flatten.Perm
          ps.flatten := by
        rw [hps1, hps2, hps3, hps4]
        rw [← Multiset.coe_eq_coe]
        simp only [List.flatten_append, List.flatten_cons,
          List.flatten_nil, List.append_nil, ← Multiset.coe_add]
        abel
      exact hperm.symm.nodup hflat

theorem merge_loop_flatten_perm (n : Nat) (fuel : Nat) :
    ∀ l : Clusters, MergeInv l →
    (flatten_vals (merge_loop n fuel l)).Perm (flatten_vals l) := by
  induction fuel with
  | zero => intro l _; exact List.Perm.refl _
  | succ f ih =>
    intro l hinv
    rw [merge_loop]
    by_cases hguard : n < l.length ∧ 1 < l.length
    · rw [if_pos hguard]
      cases hpk : pick_merge_pair l with
      | none => exact List.Perm.refl _
      | some pr =>
        obtain ⟨c1, c2⟩ := pr
        obtain ⟨hperm, hinv'⟩ :=
          merge_step_flatten_perm_inv hinv (pick_merge_pair_mem hpk)
        exact (ih _ hinv').trans hperm
    · rw [if_neg hguard]

theorem flatten_vals_filter_nonempty (l : Clusters) :
    flatten_vals (l.filter (fun e => !e.2.isEmpty)) = flatten_vals l := by
  induction l with
  | nil => rfl
  | cons e rest ih =>
    by_cases h : e.2.isEmpty = true
    · have he : e.2 = [] := by
        cases hv : e.2
        · rfl
        · rw [hv] at h; cases h
      rw [List.filter_cons, if_neg (by simp [h]), flatten_vals_cons, he, ih]
      rfl
    · rw [List.filter_cons, if_pos (by simp [Bool.not_eq_true] at h ⊢; exact h),
        flatten_vals_cons, flatten_vals_cons, ih]

theorem merge_clusters_flatten_perm (clusters : Clusters) (n : Nat)
    (hnd : (dict_keys clusters).Nodup)
    (hfree : ∀ k ∈ dict_keys clusters, '+' ∉ k.data) :
    (flatten_vals (merge_clusters clusters n)).Perm (flatten_vals clusters)
    ∧ MergeInv clusters := by
  have hsub : (dict_keys (clusters.filter (fun e => !e.2.isEmpty))).Sublist
      (dict_keys clusters) := (List.filter_sublist clusters).map Prod.fst
  have hinv : MergeInv (clusters.filter (fun e => !e.2.isEmpty)) :=
    mergeinv_of_singletons _ (hnd.sublist hsub)
      (fun k hk => hfree k (hsub.mem hk))
  refine ⟨?_, mergeinv_of_singletons _ hnd hfree⟩
  rw [merge_clusters]
  exact (merge_loop_flatten_perm n _ _ hinv).trans
    (by rw [flatten_vals_filter_nonempty])

theorem bucket_append_keys (cs : Clusters) (k : String) (p : Place) :
    dict_keys (bucket_append cs k p) = dict_keys cs := by
  rw [bucket_append, dict_keys, dict_keys, List.map_map]
  refine List.map_congr_left ?_
  intro e _
  by_cases h : e.1 = k <;> simp [h]

theorem bucket_append_not_mem (cs : Clusters) (k : String) (p : Place)
    (h : k ∉ dict_keys cs) : bucket_append cs k p = cs := by
  rw [bucket_append]
  refine List.map_congr_left ?_ |>.trans (List.map_id cs)
  intro e he
  have : e.1 ≠ k := by
    intro hek
    exact h (by rw [← hek]; exact List.mem_map_of_mem _ he)
  simp [this]

theorem bucket_append_flatten (cs : Clusters) (k : String) (p : Place)
    (hmem : k ∈ dict_keys cs) (hnd : (dict_keys cs).Nodup) :
    (flatten_vals (bucket_append cs k p)).Perm (flatten_vals cs ++ [p]) := by
  induction cs with
  | nil => cases hmem
  | cons e rest ih =>
    have hnd0 : (e.1 :: dict_keys rest).Nodup := hnd
    have hnd' := List.nodup_cons.mp hnd0
    by_cases h : e.1 = k
    · have hknr : k ∉ dict_keys rest := h ▸ hnd'.1
      rw [show bucket_append (e :: rest) k p =
          (e.1, e.2 ++ [p]) :: bucket_append rest k p from by
            rw [bucket_append, List.map_cons, if_pos h]; rfl,
        bucket_append_not_mem rest k p hknr,
        flatten_vals_cons, flatten_vals_cons]
      rw [← Multiset.coe_eq_coe]
      simp only [← Multiset.coe_add]
      abel
    · have hkr : k ∈ dict_keys rest := by
        rcases (by simpa [dict_keys] using hmem : k = e.1 ∨ k ∈ dict_keys rest)
          with hk | hk
        · exact absurd hk.symm h
        · exact hk
      rw [show bucket_append (e :: rest) k p =
          e :: bucket_append rest k p from by
            rw [bucket_append, List.map_cons, if_neg h]; rfl,
        flatten_vals_cons, flatten_vals_cons]
      refine ((ih hkr hnd'.2).append_left e.2).trans ?_
      rw [← Multiset.coe_eq_coe]
      simp only [← Multiset.coe_add]
      abel

theorem lookup_isSome_mem {l : Clusters} {k : String}
    (h : (l.lookup k).isSome = true) : k ∈ dict_keys l := by
  induction l with
  | nil => cases h
  | cons e rest ih =>
    obtain ⟨k', v'⟩ := e
    by_cases hk : k = k'
    · simp [dict_keys, hk]
    · rw [show List.lookup k ((k', v') :: rest) =
          match k == k' with
          | true => some v'
          | false => List.lookup k rest from rfl,
        beq_eq_false_iff_ne.mpr hk] at h
      exact List.mem_cons_of_mem _ (ih h)

theorem bucket_key_mem (cs : Clusters) (p : Place)
    (htc : "Town Center" ∈ dict_keys cs) : bucket_key cs p ∈ dict_keys cs := by
  rw [bucket_key]
  by_cases hz : p.cluster_zone.getD "Town Center" = "Outskirts"
  · rw [if_pos hz]
    by_cases hn : (cs.lookup (p.nearest_cluster.getD "Town Center")).isSome = true
    · rw [if_pos hn]
      exact lookup_isSome_mem hn
    · rw [if_neg hn]
      exact htc
  · rw [if_neg hz]
    by_cases hc : (cs.lookup (p.cluster_zone.getD "Town Center")).isSome = true
    · rw [if_pos hc]
      exact lookup_isSome_mem hc
    · rw [if_neg hc]
      exact htc

theorem assign_fold_flatten (places : List Place) :
    ∀ cs : Clusters, "Town Center" ∈ dict_keys cs → (dict_keys cs).Nodup →
    (flatten_vals (places.foldl
      (fun cs p => bucket_append cs (bucket_key cs p) p) cs)).Perm
      (flatten_vals cs ++ places) := by
  induction places with
  | nil => intro cs _ _; simp
  | cons p rest ih =>
    intro cs htc hnd
    rw [List.foldl_cons]
    refine (ih _ (by rw [bucket_append_keys]; exact htc)
      (by rw [bucket_append_keys]; exact hnd)).trans ?_
    refine ((bucket_append_flatten cs _ p (bucket_key_mem cs p htc)
      hnd).append_right rest).trans ?_
    rw [List.append_assoc, List.singleton_append]

theorem assign_fold_keys (places : List Place) :
    ∀ cs : Clusters,
    dict_keys (places.foldl
      (fun cs p => bucket_append cs (bucket_key cs p) p) cs) = dict_keys cs := by
  induction places with
  | nil => intro cs; rfl
  | cons p rest ih =>
    intro cs
    rw [List.foldl_cons, ih, bucket_append_keys]

theorem assign_to_clusters_keys (places : List Place) :
    dict_keys (assign_to_clusters places) = CLUSTER_ORDER := by
  rw [assign_to_clusters, assign_fold_keys]
  rfl

theorem assign_to_clusters_flatten_perm (places : List Place) :
    (flatten_vals (assign_to_clusters places)).Perm places := by
  rw [assign_to_clusters]
  refine (assign_fold_flatten places _ (by decide) (by decide)).trans ?_
  rw [show flatten_vals (CLUSTER_ORDER.map (fun c => (c, ([] : List Place))))
      = [] from rfl, List.nil_append]

theorem map_get_keys (l : Clusters) (hnd : (dict_keys l).Nodup) :
    (dict_keys l).map (fun k => (k, dict_get l k)) = l := by
  induction l with
  | nil => rfl
  | cons e rest ih =>
    obtain ⟨k0, v0⟩ := e
    have hnd0 : (k0 :: dict_keys rest).Nodup := hnd
    have hnd' := List.nodup_cons.mp hnd0
    rw [show dict_keys ((k0, v0) :: rest) = k0 :: dict_keys rest from rfl,
      List.map_cons]
    have hhead : dict_get ((k0, v0) :: rest) k0 = v0 := by
      rw [dict_get, lookup_cons_self]
      rfl
    rw [hhead]
    have htail : (dict_keys rest).map
        (fun k => (k, dict_get ((k0, v0) :: rest) k)) =
        (dict_keys rest).map (fun k => (k, dict_get rest k)) := by
      refine List.map_congr_left ?_
      intro k hk
      have hne : k ≠ k0 := fun he => hnd'.1 (he ▸ hk)
      rw [dict_get, dict_get,
        show List.lookup k ((k0, v0) :: rest) =
          match k == k0 with
          | true => some v0
          | false => List.lookup k rest from rfl,
        beq_eq_false_iff_ne.mpr hne]
    rw [htail, ih hnd'.2]

theorem best_weekday_perm_perm (l : Clusters) (d : Nat) :
    (best_weekday_perm l d).Perm (dict_keys l) := by
  have hmem := foldl_choice_mem
    (fun best perm =>
      if count_closed_from l d perm < count_closed_from l d best then perm
      else best)
    (fun b q => by
      by_cases hc : count_closed_from l d q < count_closed_from l d b
      · exact Or.inl (by simp [hc])
      · exact Or.inr (by simp [hc]))
    (dict_keys l).permutations (dict_keys l)
  rw [best_weekday_perm]
  rcases List.mem_cons.mp hmem with h | h
  · rw [h]
  · exact (List.mem_permutations.mp h)

theorem align_clusters_perm (l : Clusters) (d? : Option Nat)
    (hnd : (dict_keys l).Nodup) : (align_clusters l d?).Perm l := by
  cases d? with
  | none => exact List.Perm.refl _
  | some d =>
    rw [align_clusters]
    refine ((best_weekday_perm_perm l d).map
      (fun k => (k, dict_get l k))).trans ?_
    rw [map_get_keys l hnd]

theorem lookup_mem {l : List (String × Place)} {k : String} {v : Place}
    (h : l.lookup k = some v) : (k, v) ∈ l := by
  obtain ⟨l1, l2, rfl, -⟩ := List.lookup_eq_some_iff.mp h
  simp

theorem selected_of_ids_sublist (s : Scheduler) (ids : List String)
    (hstore : ∀ e ∈ s.places_data, e.2.id = e.1) :
    ((ids.filterMap (fun pid => s.places_data.lookup pid)).map
      Place.id).Sublist ids := by
  induction ids with
  | nil => simp
  | cons pid rest ih =>
    rw [List.filterMap_cons]
    cases hl : s.places_data.lookup pid with
    | none => exact ih.cons pid
    | some p =>
      have hid : p.id = pid := hstore (pid, p) (lookup_mem hl)
      rw [List.map_cons, hid]
      exact ih.cons₂ pid

theorem selected_of_ids_nodup (s : Scheduler) (ids : List String)
    (hids : ids.Nodup) (hstore : ∀ e ∈ s.places_data, e.2.id = e.1) :
    ((selected_of s ids).map Place.id).Nodup := by
  rw [selected_of]
  exact (((List.filter_sublist _).map Place.id).trans
    (selected_of_ids_sublist s ids hstore)).nodup hids

theorem first_min_by_rank_mem (p : Place) (l : List Place) :
    first_min_by_rank p l ∈ p :: l := by
  rw [first_min_by_rank]
  exact foldl_choice_mem _ (fun b q => by
    by_cases hc : rank_of q < rank_of b
    · exact Or.inl (by simp [hc])
    · exact Or.inr (by simp [hc])) l p

theorem find_anchor_mem {places : List Place} {a : Place}
    (h : find_anchor places = some a) : a ∈ places := by
  cases hf : places.filter (fun p => p.difficulty = some "Hard") with
  | cons h0 t0 =>
    rw [find_anchor.eq_def, hf] at h
    simp only [Option.some.injEq] at h
    have hm := first_min_by_rank_mem h0 t0
    rw [h] at hm
    exact (List.mem_filter.mp (hf ▸ hm)).1
  | nil =>
    cases places with
    | nil => cases h
    | cons p0 t =>
      rw [find_anchor.eq_def, hf] at h
      simp only [Option.some.injEq] at h
      have hm := first_min_by_rank_mem p0 t
      rw [h] at hm
      exact hm

theorem anchor_cons_filter_perm (anchor : Place) (places : List Place)
    (hnd : (places.map Place.id).Nodup) (hmem : anchor ∈ places) :
    (anchor.id ::
      (places.filter (fun p => p.id ≠ anchor.id)).map Place.id).Perm
      (places.map Place.id) := by
  have hsub : ((places.filter (fun p => p.id ≠ anchor.id)).map
      Place.id).Sublist (places.map Place.id) :=
    (List.filter_sublist places).map Place.id
  have hnotin : anchor.id ∉
      (places.filter (fun p => p.id ≠ anchor.id)).map Place.id := by
    intro hmm
    obtain ⟨p, hp, hpid⟩ := List.mem_map.mp hmm
    have hne := (List.mem_filter.mp hp).2
    simp only [ne_eq, decide_not, Bool.not_eq_eq_eq_not, Bool.not_true,
      decide_eq_false_iff_not] at hne
    exact hne hpid
  refine (List.perm_ext_iff_of_nodup
    (List.nodup_cons.mpr ⟨hnotin, hsub.nodup hnd⟩) hnd).mpr ?_
  intro x
  simp only [List.mem_cons, List.mem_map, List.mem_filter]
  constructor
  · rintro (rfl | ⟨p, ⟨hp, _⟩, rfl⟩)
    · exact ⟨anchor, hmem, rfl⟩
    · exact ⟨p, hp, rfl⟩
  · rintro ⟨p, hp, rfl⟩
    by_cases hpa : p.id = anchor.id
    · exact Or.inl hpa
    · exact Or.inr ⟨p, ⟨hp, by simpa using hpa⟩, rfl⟩

theorem fallback_route_ids (anchor : Place) (others : List Place) :
    (fallback_route anchor others).map RouteStop.id =
      anchor.id :: others.map Place.id := by
  rw [fallback_route]
  simp [List.map_map, Function.comp]

theorem setLastStopTravel_map_id (v : Nat) (l : List RouteStop) :
    (setLastStopTravel v l).map RouteStop.id = l.map RouteStop.id := by
  induction l with
  | nil => rfl
  | cons i rest ih =>
    cases rest with
    | nil => rfl
    | cons j rest' => simpa [setLastStopTravel] using ih

theorem range_map_getD {α : Type} (l : List α) (d : α) :
    (List.range l.length).map (fun i => l.getD i d) = l := by
  apply List.ext_getElem (by simp)
  intro i h1 h2
  simp only [List.getElem_map, List.getElem_range, List.getD_eq_getElem?_getD]
  rw [List.getElem?_eq_getElem h2]
  rfl

theorem success_tail_ids (other_places : List Place) (anchor : Place)
    (wo : List Nat) (legs : List Nat)
    (hperm : wo.Perm (List.range other_places.length)) :
    ((wo.enum.map (fun iw =>
      let place := other_places.getD iw.2 anchor
      RouteStop.mk place.id place.name (legs.getD (iw.1 + 1) 0))).map
        RouteStop.id).Perm (other_places.map Place.id) := by
  rw [List.map_map,
    show (RouteStop.id ∘ fun iw : Nat × Nat =>
        let place := other_places.getD iw.2 anchor
        RouteStop.mk place.id place.name (legs.getD (iw.1 + 1) 0)) =
      ((fun w => (other_places.getD w anchor).id) ∘ Prod.snd) from rfl,
    ← List.map_map, List.enum_map_snd]
  refine (hperm.map (fun w => (other_places.getD w anchor).id)).trans ?_
  rw [show (fun w => (other_places.getD w anchor).id) =
      (Place.id ∘ fun w => other_places.getD w anchor) from rfl,
    ← List.map_map, range_map_getD]

theorem optimize_cluster_route_ids_perm (g : Option GmapsClient)
    (places : List Place) (hc : String)
    (hnd : (places.map Place.id).Nodup)
    (horacle : ∀ gc, g = some gc → ∀ o dst ws wo legs,
      gc.directions o dst ws = DirResp.route wo legs →
      wo.Perm (List.range ws.length)) :
    ((optimize_cluster_route g places hc).map RouteStop.id).Perm
      (places.map Place.id) := by
  match places with
  | [] => simp [optimize_cluster_route]
  | [p] => simp [optimize_cluster_route]
  | p0 :: p1 :: rest =>
    rw [optimize_cluster_route.eq_def]
    dsimp only
    have hmem : (find_anchor (p0 :: p1 :: rest)).getD p0 ∈ p0 :: p1 :: rest := by
      cases ha : find_anchor (p0 :: p1 :: rest) with
      | none => simp
      | some a => exact find_anchor_mem ha
    have hfb := (fallback_route_ids _ _) ▸
      anchor_cons_filter_perm ((find_anchor (p0 :: p1 :: rest)).getD p0)
        (p0 :: p1 :: rest) hnd hmem
    cases g with
    | none => exact hfb
    | some gc =>
      dsimp only
      by_cases hemp : ((p0 :: p1 :: rest).filter
          (fun p => p.id ≠ ((find_anchor (p0 :: p1 :: rest)).getD p0).id)).isEmpty
      · rw [if_pos hemp]
        exact hfb
      · rw [if_neg hemp]
        cases hcall : cluster_route_call gc
            ((find_anchor (p0 :: p1 :: rest)).getD p0)
            ((p0 :: p1 :: rest).filter
              (fun p => p.id ≠ ((find_anchor (p0 :: p1 :: rest)).getD p0).id)) with
        | raises => exact hfb
        | noRoute => exact hfb
        | route wo legs =>
          dsimp only
          by_cases hall : wo.all
              (· < ((p0 :: p1 :: rest).filter (fun p =>
                p.id ≠ ((find_anchor (p0 :: p1 :: rest)).getD p0).id)).length)
          · rw [if_pos hall]
            have hwo : wo.Perm (List.range
                ((p0 :: p1 :: rest).filter (fun p =>
                  p.id ≠ ((find_anchor (p0 :: p1 :: rest)).getD p0).id)).length) := by
              have := horacle gc rfl _ _ _ wo legs hcall
              simpa using this
            rw [setLastStopTravel_map_id, List.map_cons]
            exact (((success_tail_ids _ _ wo legs hwo).cons _).trans
              (anchor_cons_filter_perm _ _ hnd hmem))
          · rw [if_neg hall]
            exact hfb

theorem forest_enrich_id (pd : List (String × Place)) (item : RouteItem) :
    (forest_enrich pd item).id = item.id := by
  rw [forest_enrich]
  cases pd.lookup item.id <;> rfl

theorem forest_ids_perm (fr : List RouteItem) (places : List Place)
    (hnd : (places.map Place.id).Nodup) (hfr : (fr.map RouteItem.id).Nodup) :
    ((fr.filter (fun i =>
      i.id ∈ (places.filter
        (fun p => p.id ∈ fr.map RouteItem.id)).map Place.id)).map
          RouteItem.id).Perm
      ((places.filter (fun p => p.id ∈ fr.map RouteItem.id)).map Place.id) := by
  refine (List.perm_ext_iff_of_nodup
    (((List.filter_sublist fr).map RouteItem.id).nodup hfr)
    (((List.filter_sublist places).map Place.id).nodup hnd)).mpr ?_
  intro x
  constructor
  · intro hx
    obtain ⟨i, hi, rfl⟩ := List.mem_map.mp hx
    have := (List.mem_filter.mp hi).2
    simpa using this
  · intro hx
    obtain ⟨p, hp, rfl⟩ := List.mem_map.mp hx
    have hpm : p.id ∈ fr.map RouteItem.id := by
      have := (List.mem_filter.mp hp).2
      simpa using this
    obtain ⟨i, hi, hiid⟩ := List.mem_map.mp hpm
    refine List.mem_map.mpr ⟨i, List.mem_filter.mpr ⟨hi, ?_⟩, hiid⟩
    rw [hiid]
    exact decide_eq_true hx

theorem build_day_stops_ids_perm (s : Scheduler) (cname : String)
    (places : List Place) (hc : String)
    (hnd : (places.map Place.id).Nodup)
    (hforest : (s.forest_route.map RouteItem.id).Nodup)
    (horacle : ∀ gc, s.gmaps = some gc → ∀ o dst ws wo legs,
      gc.directions o dst ws = DirResp.route wo legs →
      wo.Perm (List.range ws.length)) :
    ((build_day_stops s cname places hc).map Stop.id).Perm
      (places.map Place.id) := by
  rw [build_day_stops]
  by_cases hcf : contains_sub "Forest Circuit" cname
  · rw [if_pos hcf]
    dsimp only
    rw [List.map_append, List.map_map, List.map_map,
      show (Stop.id ∘ forest_enrich s.places_data) = RouteItem.id from
        funext fun i => forest_enrich_id _ i,
      show (Stop.id ∘ forest_other_enrich cname) = Place.id from
        funext fun p => rfl,
      get_forest_route_for_selection, setLastTravelZero_map_id,
      forest_filter_loop_map_id]
    refine ((forest_ids_perm s.forest_route places hnd hforest).append_right
      _).trans ?_
    rw [← List.map_append,
      show places.filter (fun p => p.id ∉ s.forest_route.map RouteItem.id) =
        places.filter (fun p =>
          !(decide (p.id ∈ s.forest_route.map RouteItem.id))) from
        List.filter_congr (fun a _ => by simp only [decide_not])]
    exact (places.filter_append_perm
      (fun p => decide (p.id ∈ s.forest_route.map RouteItem.id))).map Place.id
  · rw [if_neg hcf]
    rw [List.map_map,
      show (Stop.id ∘ standard_enrich s.places_data cname) = RouteStop.id from
        funext fun i => rfl]
    exact optimize_cluster_route_ids_perm s.gmaps places hc hnd horacle

theorem build_days_flatten_ids_perm (s : Scheduler) (cl : Clusters)
    (hc : String)
    (hnd : ((flatten_vals cl).map Place.id).Nodup)
    (hforest : (s.forest_route.map RouteItem.id).Nodup)
    (horacle : ∀ gc, s.gmaps = some gc → ∀ o dst ws wo legs,
      gc.directions o dst ws = DirResp.route wo legs →
      wo.Perm (List.range ws.length)) :
    (((build_days s cl hc).map (fun d => d.places.map Stop.id)).flatten).Perm
      ((flatten_vals cl).map Place.id) := by
  rw [build_days, List.map_map,
    show ((fun d : Day => d.places.map Stop.id) ∘ fun e : Nat × (String × List Place) =>
        let stops := build_day_stops s e.2.1 e.2.2 hc
        { day := e.1 + 1, cluster := e.2.1, places := stops,
          total_drive_min := stops_travel_sum stops,
          place_count := stops.length }) =
      ((fun x : String × List Place =>
        (build_day_stops s x.1 x.2 hc).map Stop.id) ∘ Prod.snd) from rfl,
    ← List.map_map, List.enum_map_snd]
  have hptw : List.Forall₂ List.Perm
      ((cl.filter (fun e => !e.2.isEmpty)).map (fun x : String × List Place =>
        (build_day_stops s x.1 x.2 hc).map Stop.id))
      ((cl.filter (fun e => !e.2.isEmpty)).map
        (fun x : String × List Place => x.2.map Place.id)) := by
    rw [List.forall₂_map_right_iff, List.forall₂_map_left_iff,
      List.forall₂_same]
    intro e he
    refine build_day_stops_ids_perm s e.1 e.2 hc ?_ hforest horacle
    have hsubl : e.2.Sublist (flatten_vals cl) :=
      List.sublist_flatten_of_mem
        (List.mem_map_of_mem Prod.snd (List.mem_of_mem_filter he))
    exact (hsubl.map Place.id).nodup hnd
  refine (List.Perm.flatten_congr hptw).trans ?_
  · rw [show (cl.filter (fun e => !e.2.isEmpty)).map
        (fun x : String × List Place => x.2.map Place.id) =
      ((cl.filter (fun e => !e.2.isEmpty)).map Prod.snd).map
        (List.map Place.id) from by rw [List.map_map]; rfl,
      ← List.map_flatten, show ((cl.filter (fun e => !e.2.isEmpty)).map
        Prod.snd).flatten = flatten_vals (cl.filter (fun e => !e.2.isEmpty))
        from rfl, flatten_vals_filter_nonempty]

theorem merge_loop_inv (n : Nat) (fuel : Nat) :
    ∀ l : Clusters, MergeInv l → MergeInv (merge_loop n fuel l) := by
  induction fuel with
  | zero => intro l h; exact h
  | succ f ih =>
    intro l hinv
    rw [merge_loop]
    by_cases hguard : n < l.length ∧ 1 < l.length
    · rw [if_pos hguard]
      cases hpk : pick_merge_pair l with
      | none => exact hinv
      | some pr =>
        obtain ⟨c1, c2⟩ := pr
        exact ih _ (merge_step_flatten_perm_inv hinv (pick_merge_pair_mem hpk)).2
    · rw [if_neg hguard]
      exact hinv

theorem merge_clusters_keys_nodup (clusters : Clusters) (n : Nat)
    (hnd : (dict_keys clusters).Nodup)
    (hfree : ∀ k ∈ dict_keys clusters, '+' ∉ k.data) :
    (dict_keys (merge_clusters clusters n)).Nodup := by
  have hsub : (dict_keys (clusters.filter (fun e => !e.2.isEmpty))).Sublist
      (dict_keys clusters) := (List.filter_sublist clusters).map Prod.fst
  refine mergeinv_keys_nodup (merge_loop_inv n _ _
    (mergeinv_of_singletons _ (hnd.sublist hsub)
      (fun k hk => hfree k (hsub.mem hk))))

theorem do_split_flatten_ids_perm (days : List Day) (il : Nat × Day)
    (h : split_choice days = some il) :
    (((do_split days il).map (fun d => d.places.map Stop.id)).flatten).Perm
      ((days.map (fun d => d.places.map Stop.id)).flatten) := by
  have henum : il ∈ days.enum := List.mem_of_mem_filter (split_choice_spec h).1
  have hget : days[il.1]? = some il.2 := List.mk_mem_enum_iff_getElem?.mp henum
  obtain ⟨hlt, hday⟩ := List.getElem?_eq_some_iff.mp hget
  rw [do_split, List.set_eq_take_cons_drop _ hlt]
  conv_rhs => rw [show days = days.take il.1 ++ days.drop il.1 from
    (List.take_append_drop il.1 days).symm,
    List.drop_eq_getElem_cons hlt, hday]
  simp only [List.map_append, List.map_cons, List.flatten_append,
    List.flatten_cons, List.map_nil, List.flatten_nil]
  rw [← Multiset.coe_eq_coe]
  simp only [← Multiset.coe_add, List.append_nil]
  rw [show ((il.2.places.map Stop.id : List String) : Multiset String) =
      ((il.2.places.take (il.2.places.length / 2)).map Stop.id : List String) +
        ((il.2.places.drop (il.2.places.length / 2)).map Stop.id : List String)
      from by rw [Multiset.coe_add, ← List.map_append, List.take_append_drop]]
  abel

theorem split_loop_flatten_ids_perm (n : Nat) (fuel : Nat) :
    ∀ days : List Day,
    (((split_loop n fuel days).map (fun d => d.places.map Stop.id)).flatten).Perm
      ((days.map (fun d => d.places.map Stop.id)).flatten) := by
  induction fuel with
  | zero => intro days; exact List.Perm.refl _
  | succ f ih =>
    intro days
    rw [split_loop]
    by_cases hlen : days.length < n
    · rw [if_pos hlen]
      cases hso : split_once days with
      | none => exact List.Perm.refl _
      | some days2 =>
        rw [split_once] at hso
        obtain ⟨il, hil, hdo⟩ := Option.map_eq_some'.mp hso
        refine (ih days2).trans ?_
        rw [← hdo]
        exact do_split_flatten_ids_perm days il hil
    · rw [if_neg hlen]

theorem renumber_map_ids (days : List Day) :
    (renumber days).map (fun d => d.places.map Stop.id) =
      days.map (fun d => d.places.map Stop.id) := by
  rw [renumber, List.map_map,
    show ((fun d : Day => d.places.map Stop.id) ∘ fun e : Nat × Day =>
        { e.2 with day := e.1 + 1 }) =
      ((fun d : Day => d.places.map Stop.id) ∘ Prod.snd) from rfl,
    ← List.map_map, List.enum_map_snd]

theorem split_days_flatten_ids_perm (days : List Day) (n : Nat) (pace : String) :
    (((split_days_if_needed days n pace).map
      (fun d => d.places.map Stop.id)).flatten).Perm
      ((days.map (fun d => d.places.map Stop.id)).flatten) := by
  rw [split_days_if_needed, renumber_map_ids]
  exact split_loop_flatten_ids_perm n n days

theorem flatten_vals_perm_of_perm {l1 l2 : Clusters} (h : l1.Perm l2) :
    (flatten_vals l1).Perm (flatten_vals l2) :=
  (h.map Prod.snd).flatten

theorem route_phase_flatten_ids_perm (s : Scheduler) (cfg : UserConfig)
    (sel : List Place)
    (hnd : (sel.map Place.id).Nodup)
    (hforest : (s.forest_route.map RouteItem.id).Nodup)
    (horacle : ∀ gc, s.gmaps = some gc → ∀ o dst ws wo legs,
      gc.directions o dst ws = DirResp.route wo legs →
      wo.Perm (List.range ws.length)) :
    (((route_phase s cfg sel).map (fun d => d.places.map Stop.id)).flatten).Perm
      (sel.map Place.id) := by
  have hk0 : dict_keys (assign_to_clusters sel) = CLUSTER_ORDER :=
    assign_to_clusters_keys sel
  have hfv0 : (flatten_vals (assign_to_clusters sel)).Perm sel :=
    assign_to_clusters_flatten_perm sel
  have hk0nd : (dict_keys (assign_to_clusters sel)).Nodup := by
    rw [hk0]; decide
  have hk0free : ∀ k ∈ dict_keys (assign_to_clusters sel), '+' ∉ k.data := by
    rw [hk0]; decide
  set clusters1 :=
    if cfg.num_days < count_nonempty (assign_to_clusters sel) then
      merge_clusters (assign_to_clusters sel) cfg.num_days
    else assign_to_clusters sel with hc1
  have hfv1 : (flatten_vals clusters1).Perm (flatten_vals (assign_to_clusters sel)) := by
    rw [hc1]
    by_cases hm : cfg.num_days < count_nonempty (assign_to_clusters sel)
    · rw [if_pos hm]
      exact (merge_clusters_flatten_perm _ _ hk0nd hk0free).1
    · rw [if_neg hm]
  have hk1nd : (dict_keys clusters1).Nodup := by
    rw [hc1]
    by_cases hm : cfg.num_days < count_nonempty (assign_to_clusters sel)
    · rw [if_pos hm]
      exact merge_clusters_keys_nodup _ _ hk0nd hk0free
    · rw [if_neg hm]
      exact hk0nd
  have hfv2 : (flatten_vals (align_clusters clusters1 cfg.start_day_idx)).Perm
      (flatten_vals clusters1) :=
    flatten_vals_perm_of_perm (align_clusters_perm clusters1 cfg.start_day_idx hk1nd)
  have hfvsel : (flatten_vals (align_clusters clusters1 cfg.start_day_idx)).Perm sel :=
    (hfv2.trans hfv1).trans hfv0
  have hnd2 : ((flatten_vals (align_clusters clusters1 cfg.start_day_idx)).map
      Place.id).Nodup := ((hfvsel.map Place.id).symm.nodup hnd)
  have hdays := build_days_flatten_ids_perm s
    (align_clusters clusters1 cfg.start_day_idx) cfg.hotel_cluster hnd2
    hforest horacle
  have hdaysel := hdays.trans (hfvsel.map Place.id)
  rw [route_phase]
  rw [← hc1]
  by_cases hsplit : (build_days s (align_clusters clusters1 cfg.start_day_idx)
      cfg.hotel_cluster).length < cfg.num_days
  · rw [if_pos hsplit]
    exact (split_days_flatten_ids_perm _ _ _).trans hdaysel
  · rw [if_neg hsplit]
    exact hdaysel

theorem simulate_build_day_ids_perm (forced : List String)
    (etm sh eh : Nat) (pace : String) (day : Day) :
    ((simulate_build_day forced etm sh eh pace day).1.places.map Stop.id
      ++ (simulate_build_day forced etm sh eh pace day).2.map
        RemovedPlace.id).Perm (day.places.map Stop.id) := by
  rw [simulate_build_day]
  dsimp only
  rw [List.map_map,
    show (RemovedPlace.id ∘ removed_of eh pace) = Stop.id from
      funext fun p => rfl]
  exact simulate_day_ids_perm forced etm (sh * 60) day.places

theorem sim_flatten_ids_perm (cfg : UserConfig) (days1 : List Day) :
    ((((sim_phase cfg days1).map Prod.fst).map
        (fun d => d.places.map Stop.id)).flatten
      ++ (((sim_phase cfg days1).map Prod.snd).flatten).map
        RemovedPlace.id).Perm
      ((days1.map (fun d => d.places.map Stop.id)).flatten) := by
  induction days1 with
  | nil => simp [sim_phase]
  | cons d rest ih =>
    have hd := simulate_build_day_ids_perm cfg.user_forced_ids
      (PACE_END_TIMES (str_lower cfg.pace) * 60)
      (PACE_START_TIMES (str_lower cfg.pace))
      (PACE_END_TIMES (str_lower cfg.pace)) cfg.pace d
    rw [show sim_phase cfg (d :: rest) =
        simulate_build_day cfg.user_forced_ids
          (PACE_END_TIMES (str_lower cfg.pace) * 60)
          (PACE_START_TIMES (str_lower cfg.pace))
          (PACE_END_TIMES (str_lower cfg.pace)) cfg.pace d
        :: sim_phase cfg rest from by rw [sim_phase, sim_phase, List.map_cons]]
    simp only [List.map_cons, List.flatten_cons, List.map_append]
    rw [← Multiset.coe_eq_coe] at hd ih ⊢
    simp only [← Multiset.coe_add] at hd ih ⊢
    rw [← hd, ← ih]
    abel

theorem hotel_phase_map_ids (s : Scheduler) (cfg : UserConfig)
    (days3 : List Day) :
    (hotel_phase s cfg days3).map (fun d => d.places.map Stop.id) =
      days3.map (fun d => d.places.map Stop.id) := by
  rw [hotel_phase]
  split
  · split
    · rw [List.map_map]
      refine List.map_congr_left ?_
      intro d _
      simp only [Function.comp_apply, add_hotel_times_places]
    · rfl
  · rfl

theorem flatten_ids_filter_empty (ds : List Day) :
    ((ds.filter (fun d => !d.places.isEmpty)).map
      (fun d => d.places.map Stop.id)).flatten =
    (ds.map (fun d => d.places.map Stop.id)).flatten := by
  induction ds with
  | nil => rfl
  | cons d rest ih =>
    by_cases h : d.places.isEmpty = true
    · rw [List.filter_cons, if_neg (by simp [h]), List.map_cons,
        List.flatten_cons, List.isEmpty_iff.mp h, ih]
      rfl
    · rw [List.filter_cons,
        if_pos (by simp only [Bool.not_eq_true] at h ⊢; simp [h]),
        List.map_cons, List.map_cons, List.flatten_cons, List.flatten_cons, ih]

/-- **C1** (partition invariant): for every build request with distinct
selected ids and `num_days ≥ 1`, given a consistent place store (each
entry's place carries its key as id), a duplicate-free cached circuit, and
a directions oracle whose `waypoint_order` is a permutation of the waypoint
indices, the multiset of place ids across all `days[*].places` of the
result together with the ids of `removed_places` is exactly the set of
selected, itinerary-eligible place ids — each such id appears in exactly
one of the two, never duplicated, never omitted. -/
theorem build_itinerary_partition (s : Scheduler) (ids : List String)
    (cfg : UserConfig)
    (hids : ids.Nodup) (hdays : 1 ≤ cfg.num_days)
    (hstore : ∀ e ∈ s.places_data, e.2.id = e.1)
    (hforest : (s.forest_route.map RouteItem.id).Nodup)
    (horacle : ∀ gc, s.gmaps = some gc → ∀ o dst ws wo legs,
      gc.directions o dst ws = DirResp.route wo legs →
      wo.Perm (List.range ws.length)) :
    ((((result_days (build_itinerary s ids cfg)).map
        (fun d => d.places.map Stop.id)).flatten
      ++ (result_removed (build_itinerary s ids cfg)).map
        RemovedPlace.id).Perm ((selected_of s ids).map Place.id))
    ∧ ∀ pid ∈ (selected_of s ids).map Place.id,
      ((result_days (build_itinerary s ids cfg)).map
        (fun d => d.places.map Stop.id)).flatten.count pid
      + ((result_removed (build_itinerary s ids cfg)).map
        RemovedPlace.id).count pid = 1 := by
  have hselnd : ((selected_of s ids).map Place.id).Nodup :=
    selected_of_ids_nodup s ids hids hstore
  by_cases hemp : (selected_of s ids).isEmpty = true
  · rw [build_itinerary, if_pos hemp, List.isEmpty_iff.mp hemp]
    exact ⟨by simp [result_days, result_removed], by simp⟩
  · have hP : ((((result_days (build_itinerary s ids cfg)).map
        (fun d => d.places.map Stop.id)).flatten
      ++ (result_removed (build_itinerary s ids cfg)).map
        RemovedPlace.id).Perm ((selected_of s ids).map Place.id)) := by
      rw [build_itinerary_of_not_empty s ids cfg hemp, result_days,
        result_removed, hotel_phase_map_ids, renumber_map_ids,
        flatten_ids_filter_empty]
      exact (sim_flatten_ids_perm cfg _).trans
        (route_phase_flatten_ids_perm s cfg _ hselnd hforest horacle)
    refine ⟨hP, ?_⟩
    intro pid hpid
    rw [← List.count_append, hP.count_eq]
    exact List.count_eq_one_of_mem hselnd hpid

theorem build_itinerary_partition_witness :
    (["solo-long-place"] : List String).Nodup
    ∧ 1 ≤ fastCfg.num_days
    ∧ ((((result_days (build_itinerary soloSched ["solo-long-place"]
          fastCfg)).map (fun d => d.places.map Stop.id)).flatten
      ++ (result_removed (build_itinerary soloSched ["solo-long-place"]
          fastCfg)).map RemovedPlace.id).Perm
      ((selected_of soloSched ["solo-long-place"]).map Place.id)) :=
  ⟨by decide, by decide,
    (build_itinerary_partition soloSched ["solo-long-place"] fastCfg
      (by decide) (by decide) (by decide) (by decide)
      (fun gc h => Option.noConfusion h)).1⟩

end TravelAgent
